import Mathlib

/-!
# pkcs12sm: decoding of the SM2 key container

A shallow embedding of `src/pkcs12/pkcs12sm.go` (package `pkcs12`):
`Decode`, `KDF`, `DecryptSm2Key` and `ReadPrivateKeyFromSMFile`.

The functions of other packages that the file calls (`asn1.Unmarshal`,
the `sm3` hash, the `sm4` cipher, `x509.ParseCertificate`, `base64`,
`os.Open`, `ioutil.ReadAll`) are parameters, gathered in `Env`.  Every call
of such a function is recorded in a trace, and a computation ends in one of
three ways: it returns, the process is terminated by `log.Fatal`, or a Go
run-time panic is raised.
-/

namespace Pkcs12

/-! ## Data model -/

/-- A byte. -/
abbrev Byte := Fin 256

/-- A Go `[]byte`; the nil slice and the empty slice are both `[]`, and the
capacity of a slice is taken to be its length. -/
abbrev Bytes := List Byte

/-- A Go `string`: an immutable sequence of bytes. -/
abbrev GoString := List Byte

/-- A non-nil Go `error` value, identified by its message. -/
structure GoError where
  msg : String
deriving DecidableEq, Repr

/-- The value `errors.New(msg)`. -/
def errorsNew (msg : String) : GoError := ⟨msg⟩

/-- The message of the error `Decode` builds for trailing bytes (line 41). -/
def trailingDataMsg : String := "go-pkcs12: trailing data found"

/-- Go run-time panics that the code can raise. -/
inductive PanicKind where
  /-- slice bounds out of range (`h[:16]`, `h[16:]`) -/
  | sliceBounds
  /-- failed type assertion `x.(T)` -/
  | typeAssertion
  /-- nil pointer dereference -/
  | nilDeref
deriving DecidableEq, Repr

/-- The type `asn1.RawValue`. -/
structure RawValue where
  Class : Int
  Tag : Int
  IsCompound : Bool
  Bytes : List Byte
  FullBytes : List Byte
deriving DecidableEq, Repr

/-- The type `asn1.ObjectIdentifier` (`[]int`). -/
abbrev ObjectIdentifier := List Int

/-- The struct `privateKeyContent` (lines 23-27). -/
structure privateKeyContent where
  OID1 : ObjectIdentifier
  OID2 : ObjectIdentifier
  Content : RawValue
deriving DecidableEq, Repr

/-- The struct `publicKeyContent` (lines 29-32). -/
structure publicKeyContent where
  OID : ObjectIdentifier
  Content : RawValue
deriving DecidableEq, Repr

/-- The struct `smPdu` (lines 17-21). -/
structure smPdu where
  Version : Int
  PrivContent : privateKeyContent
  PubContent : publicKeyContent
deriving DecidableEq, Repr

/-- The dynamic value held by the field `PublicKey interface{}` of a
certificate; `PK` is the type `sm2.PublicKey`. -/
inductive DynKey (PK : Type) where
  /-- the nil interface value -/
  | nilIface
  /-- a value of dynamic type `*sm2.PublicKey`; `none` is the nil pointer -/
  | sm2Ptr (p : Option PK)
  /-- a value of any other dynamic type -/
  | other (typeName : String)
deriving DecidableEq, Repr

/-- The struct `sm2.PrivateKey`: an embedded public key and the scalar `D`
(a `*big.Int`). -/
structure PrivateKey (PK : Type) where
  PublicKey : PK
  D : Int
deriving DecidableEq, Repr

/-! ## Calls, traces and outcomes -/

/-- A call of a function that lives outside `pkcs12sm.go`. -/
inductive Event where
  | asn1Unmarshal (data : Bytes)
  | sm3New
  | sm3Write (p : Bytes)
  | sm3Sum
  | base64Decode (src : Bytes)
  | sm4Init (iv key : Bytes)
  | sm4Cbc (data : Bytes) (mode : Bool)
  | parseCertificate (der : Bytes)
  | osOpen (name : GoString)
  | ioutilReadAll
  | base64DecodeString (s : GoString)
  | logFatal (e : GoError)
deriving DecidableEq, Repr

/-- How a computation ends. -/
inductive Outcome (α : Type) where
  /-- the function returned `a` to its caller -/
  | returned (a : α)
  /-- `log.Fatal(e)` terminated the process -/
  | fatal (e : GoError)
  /-- a run-time panic was raised -/
  | panicked (k : PanicKind)
deriving DecidableEq, Repr

/-- A computation: the calls it made, in order, and how it ended. -/
structure Go (α : Type) where
  trace : List Event
  outcome : Outcome α
deriving DecidableEq, Repr

namespace Go

/-- Return a value without calling anything. -/
def ret {α : Type} (a : α) : Go α := ⟨[], .returned a⟩

/-- Sequencing: the continuation runs only if the first part returned. -/
def andThen {α β : Type} (x : Go α) (f : α → Go β) : Go β :=
  match x.outcome with
  | .returned a => ⟨x.trace ++ (f a).trace, (f a).outcome⟩
  | .fatal e => ⟨x.trace, .fatal e⟩
  | .panicked k => ⟨x.trace, .panicked k⟩

instance : Monad Go where
  pure := ret
  bind := andThen

/-- An external call `ev` that yields `v`. -/
def call {α : Type} (ev : Event) (v : α) : Go α := ⟨[ev], .returned v⟩

/-- The call `log.Fatal(e)`: the process exits, nothing after it runs. -/
def logFatal {α : Type} (e : GoError) : Go α := ⟨[.logFatal e], .fatal e⟩

/-- A run-time panic. -/
def panic {α : Type} (k : PanicKind) : Go α := ⟨[], .panicked k⟩

end Go

/-- The slice expression `h[:n]`. -/
def sliceTo (h : Bytes) (n : Nat) : Go Bytes :=
  if n ≤ h.length then Go.ret (h.take n) else Go.panic .sliceBounds

/-- The slice expression `h[n:]`. -/
def sliceFrom (h : Bytes) (n : Nat) : Go Bytes :=
  if n ≤ h.length then Go.ret (h.drop n) else Go.panic .sliceBounds

/-- The type assertion `v.(*sm2.PublicKey)` in its one-result form. -/
def assertSm2Ptr {PK : Type} (v : DynKey PK) : Go (Option PK) :=
  match v with
  | .sm2Ptr p => Go.ret p
  | .nilIface => Go.panic .typeAssertion
  | .other _ => Go.panic .typeAssertion

/-- The pointer dereference `*p`. -/
def deref {α : Type} (p : Option α) : Go α :=
  match p with
  | some a => Go.ret a
  | none => Go.panic .nilDeref

/-- The value of `new(big.Int).SetBytes(buf)`: `buf` read as a big-endian
unsigned integer. -/
def SetBytes (buf : Bytes) : Int :=
  Int.ofNat (buf.foldl (fun acc b => acc * 256 + b.val) 0)

/-! ## The functions of other packages -/

/-- The `sm3` hash object: `sm3.New()`, `Write` and `Sum`. -/
structure Sm3 where
  State : Type
  New : State
  Write : State → Bytes → State
  Sum : State → Bytes → Bytes

/-- The `sm4` cipher object: `sm4.Init(iv, key)` and its method
`Sm4Cbc(data, mode)`. -/
structure Sm4 where
  Ctx : Type
  Init : Bytes → Bytes → Ctx
  Sm4Cbc : Ctx → Bytes → Bool → Except GoError Bytes

/-- The file system: `os.Open` and `ioutil.ReadAll`. -/
structure FileSys where
  File : Type
  Open : GoString → Except GoError File
  ReadAll : File → Except GoError Bytes

/-- Everything `pkcs12sm.go` calls from other packages.  `PK` is the type
`sm2.PublicKey` and `Cert` the type `x509.Certificate`. -/
structure Env (PK Cert : Type) where
  /-- `asn1.Unmarshal(data, sm)`: the filled structure and the rest -/
  Unmarshal : Bytes → Except GoError (smPdu × Bytes)
  sm3 : Sm3
  sm4 : Sm4
  /-- `base64.StdEncoding.Decode(dst, src)` with `len(dst) = len(src)`:
  the bytes written to `dst`, their number, and the error if any -/
  b64Decode : Bytes → Bytes × Nat × Option GoError
  /-- `base64.StdEncoding.DecodeString(s)` -/
  b64DecodeString : GoString → Except GoError Bytes
  /-- `x509.ParseCertificate(der)`: a certificate pointer or an error -/
  ParseCertificate : Bytes → Except GoError (Option Cert)
  /-- the field `PublicKey` of a certificate -/
  certPublicKey : Cert → DynKey PK
  fs : FileSys

/-! ## The functions of `pkcs12sm.go` -/

section Code

variable {PK Cert : Type}

/-- `KDF` (lines 65-72). -/
def KDF (env : Env PK Cert) (z : Bytes) : Go Bytes := do
  let ct : Bytes := [0, 0, 0, 1]
  let s0 ← Go.call .sm3New env.sm3.New
  let s1 ← Go.call (.sm3Write z) (env.sm3.Write s0 z)
  let s2 ← Go.call (.sm3Write ct) (env.sm3.Write s1 ct)
  let h ← Go.call .sm3Sum (env.sm3.Sum s2 [])
  return h

/-- The conversion `[]byte(password)`. -/
def bytesOfString (s : GoString) : Bytes := s

/-- The conversion `string(data)`. -/
def stringOfBytes (b : Bytes) : GoString := b

/-- `DecryptSm2Key` (lines 77-98). -/
def DecryptSm2Key (env : Env PK Cert) (password : GoString) (encryptedData : Bytes) :
    Go Bytes :=
  if 32 ≤ encryptedData.length ∧ encryptedData.length ≤ 64 then do
    let encoding : Bytes := List.replicate encryptedData.length 0
    let encoding ←
      if encryptedData.length ≠ 32 ∧ encryptedData.length ≠ 48 then
        Go.call (.base64Decode encryptedData) (env.b64Decode encryptedData).1
      else
        Go.ret encoding
    let _ := encoding
    let encoding := encryptedData
    let h ← KDF env (bytesOfString password)
    let iv ← sliceTo h 16
    let key ← sliceFrom h 16
    let sm4 ← Go.call (.sm4Init iv key) (env.sm4.Init iv key)
    match ← Go.call (.sm4Cbc encoding false) (env.sm4.Sm4Cbc sm4 encoding false) with
    | .error err => Go.logFatal err
    | .ok out => return out
  else
    return []

/-- The three results of `Decode`; `none` is `nil`. -/
structure DecodeResult (PK Cert : Type) where
  privateKey : Option (PrivateKey PK)
  certificate : Option Cert
  err : Option GoError
deriving DecidableEq, Repr

/-- `Decode` (lines 34-59). -/
def Decode (env : Env PK Cert) (smData : Bytes) (password : GoString) :
    Go (DecodeResult PK Cert) := do
  match ← Go.call (.asn1Unmarshal smData) (env.Unmarshal smData) with
  | .error err => return ⟨none, none, some err⟩
  | .ok (sm, trailing) =>
    if trailing.length ≠ 0 then
      return ⟨none, none, some (errorsNew trailingDataMsg)⟩
    else
      let dBytes ← DecryptSm2Key env password sm.PrivContent.Content.Bytes
      match ← Go.call (.parseCertificate sm.PubContent.Content.Bytes)
          (env.ParseCertificate sm.PubContent.Content.Bytes) with
      | .error err => do
        (Go.logFatal err : Go Unit)
        return ⟨none, none, some err⟩
      | .ok cer =>
        let c ← deref cer
        let pub ← assertSm2Ptr (env.certPublicKey c)
        let pk ← deref pub
        let priv : PrivateKey PK := { PublicKey := pk, D := SetBytes dBytes }
        return ⟨some priv, cer, none⟩

/-- The two results of `ReadPrivateKeyFromSMFile`; `none` is `nil`. -/
structure ReadResult (PK : Type) where
  privateKey : Option (PrivateKey PK)
  err : Option GoError
deriving DecidableEq, Repr

/-- `ReadPrivateKeyFromSMFile` (lines 100-119). -/
def ReadPrivateKeyFromSMFile (env : Env PK Cert) (file password : GoString) :
    Go (ReadResult PK) := do
  match ← Go.call (.osOpen file) (env.fs.Open file) with
  | .error err => return ⟨none, some err⟩
  | .ok f =>
    match ← Go.call .ioutilReadAll (env.fs.ReadAll f) with
    | .error err => return ⟨none, some err⟩
    | .ok data =>
      match ← Go.call (.base64DecodeString (stringOfBytes data))
          (env.b64DecodeString (stringOfBytes data)) with
      | .error err => return ⟨none, some err⟩
      | .ok d =>
        let r ← Decode env d password
        match r.err with
        | some err => return ⟨none, some err⟩
        | none => return ⟨r.privateKey, none⟩

end Code

/-! ## A small concrete environment

Stand-ins for the functions of the other packages, used to run the code on
concrete inputs. -/

namespace Sample

/-- A public key: a point given by two coordinates. -/
structure Point where
  X : Nat
  Y : Nat
deriving DecidableEq, Repr

/-- A certificate: its bytes and the value of its `PublicKey` field. -/
structure Certificate where
  Raw : Bytes
  PublicKey : DynKey Point
deriving DecidableEq, Repr

/-- Wrap content bytes as an OCTET STRING raw value. -/
def octets (b : Bytes) : RawValue :=
  { Class := 0, Tag := 4, IsCompound := false, Bytes := b, FullBytes := b }

/-- A length-prefixed container format: a version byte, the length of the
private content and the content, the length of the public content and the
content; what follows is the rest. -/
def unmarshal : Bytes → Except GoError (smPdu × Bytes)
  | ver :: n :: rest =>
    if n.val ≤ rest.length then
      match rest.drop n.val with
      | m :: rest2 =>
        if m.val ≤ rest2.length then
          .ok ({ Version := ver.val,
                 PrivContent := { OID1 := [1, 2, 156, 10197, 6, 1, 4, 2, 1],
                                  OID2 := [1, 2, 156, 10197, 1, 104],
                                  Content := octets (rest.take n.val) },
                 PubContent := { OID := [1, 2, 156, 10197, 6, 1, 4, 2, 1],
                                 Content := octets (rest2.take m.val) } },
               rest2.drop m.val)
        else .error ⟨"asn1: syntax error: data truncated"⟩
      | [] => .error ⟨"asn1: syntax error: data truncated"⟩
    else .error ⟨"asn1: syntax error: data truncated"⟩
  | _ => .error ⟨"asn1: syntax error: data truncated"⟩

/-- A 32-byte digest: byte `i` is the sum of the input bytes plus `i`. -/
def digest (s : Bytes) : Bytes :=
  (List.range 32).map (fun i => s.foldl (fun a b => a + b) (Fin.ofNat i))

/-- A hash whose state is the bytes written so far. -/
def sm3 : Sm3 where
  State := Bytes
  New := []
  Write := fun s p => s ++ p
  Sum := fun s b => b ++ digest s

/-- A cipher that accepts whole 16-byte blocks only and shifts every byte
by the first byte of the iv and the first byte of the key. -/
def sm4 : Sm4 where
  Ctx := Bytes × Bytes
  Init := fun iv key => (iv, key)
  Sm4Cbc := fun ctx data _ =>
    if data.length % 16 = 0 then
      .ok (data.map (fun b => b - ctx.1.headD 0 - ctx.2.headD 0))
    else .error ⟨"sm4: input not full blocks"⟩

/-- The value of a base64 character, if it is one. -/
def sextet (c : Byte) : Option Nat :=
  if 65 ≤ c.val ∧ c.val ≤ 90 then some (c.val - 65)
  else if 97 ≤ c.val ∧ c.val ≤ 122 then some (c.val - 71)
  else if 48 ≤ c.val ∧ c.val ≤ 57 then some (c.val + 4)
  else if c.val = 43 then some 62
  else if c.val = 47 then some 63
  else none

/-- Base64 decoding of unpadded text, four characters at a time. -/
def b64DecodeString : GoString → Except GoError Bytes
  | [] => .ok []
  | a :: b :: c :: d :: rest =>
    match sextet a, sextet b, sextet c, sextet d, b64DecodeString rest with
    | some x, some y, some z, some w, .ok out =>
      let v := ((x * 64 + y) * 64 + z) * 64 + w
      .ok (Fin.ofNat (v / 65536) :: Fin.ofNat (v / 256) :: Fin.ofNat v :: out)
    | _, _, _, _, _ => .error ⟨"illegal base64 data"⟩
  | _ => .error ⟨"illegal base64 data"⟩

/-- Base64 decoding into a buffer as long as the source. -/
def b64Decode (src : Bytes) : Bytes × Nat × Option GoError :=
  match b64DecodeString src with
  | .ok out => (out ++ List.replicate (src.length - out.length) 0, out.length, none)
  | .error e => (List.replicate src.length 0, 0, some e)

/-- A certificate parser: the first byte tells the kind of public key, the
next two are the coordinates of an SM2 point. -/
def parseCertificate : Bytes → Except GoError (Option Certificate)
  | 1 :: x :: y :: rest =>
    .ok (some ⟨1 :: x :: y :: rest, .sm2Ptr (some ⟨x.val, y.val⟩)⟩)
  | 2 :: rest => .ok (some ⟨2 :: rest, .other "*rsa.PublicKey"⟩)
  | _ => .error ⟨"x509: malformed certificate"⟩

/-- A file system with the given files. -/
def fileSys (files : List (GoString × Bytes)) : FileSys where
  File := Bytes
  Open := fun name =>
    match files.lookup name with
    | some content => .ok content
    | none => .error ⟨"open: no such file or directory"⟩
  ReadAll := fun f => .ok f

/-- The environment built from the stand-ins. -/
def env (files : List (GoString × Bytes)) : Env Point Certificate where
  Unmarshal := unmarshal
  sm3 := sm3
  sm4 := sm4
  b64Decode := b64Decode
  b64DecodeString := b64DecodeString
  ParseCertificate := parseCertificate
  certPublicKey := fun c => c.PublicKey
  fs := fileSys files

/-- A certificate carrying the SM2 point (7, 9). -/
def certBytes : Bytes := [1, 7, 9]

/-- A certificate carrying a key of another type. -/
def rsaCertBytes : Bytes := [2, 7, 9]

/-- A container with private content `priv` and public content `pub`. -/
def container (priv pub : Bytes) : Bytes :=
  3 :: Fin.ofNat priv.length :: priv ++ Fin.ofNat pub.length :: pub

/-- A password. -/
def password : GoString := [112, 119]

/-- A file name. -/
def keyFile : GoString := [107, 46, 115, 109]

/-- The base64 text of `container (List.replicate 32 5) [1, 7, 9, 0]`. -/
def keyFileText : Bytes :=
  [65, 121, 65, 70, 66, 81, 85, 70, 66, 81, 85, 70, 66, 81, 85, 70, 66, 81, 85, 70, 66, 81, 85, 70, 66, 81, 85, 70, 66, 81, 85, 70, 66, 81, 85, 70, 66, 81, 85, 70, 66, 81, 85, 70, 66, 81, 81, 66, 66, 119, 107, 65]

/-- A file name whose file holds text that is not base64. -/
def badFile : GoString := [98, 97, 100]

/-- The files of the sample file system. -/
def files : List (GoString × Bytes) := [(keyFile, keyFileText), (badFile, [33, 33])]

/-- What `Decode` returns for the container made of 32 bytes `5` and
`certBytes`, under `password`. -/
def decoded : DecodeResult Point Certificate :=
  { privateKey := some { PublicKey := ⟨7, 9⟩, D := SetBytes (List.replicate 32 37) },
    certificate := some ⟨certBytes, .sm2Ptr (some ⟨7, 9⟩)⟩,
    err := none }

/-- The structure that `unmarshal` fills from `container priv pub`. -/
def pdu (priv pub : Bytes) : smPdu :=
  { Version := 3,
    PrivContent := { OID1 := [1, 2, 156, 10197, 6, 1, 4, 2, 1],
                     OID2 := [1, 2, 156, 10197, 1, 104],
                     Content := octets priv },
    PubContent := { OID := [1, 2, 156, 10197, 6, 1, 4, 2, 1],
                    Content := octets pub } }

/-- A certificate that the parser rejects. -/
def badCertBytes : Bytes := [9]

/-- A second container format: a leading byte `t` gives the version and the
arcs of the three object identifiers, the rest is read by `unmarshal`. -/
def taggedUnmarshal : Bytes → Except GoError (smPdu × Bytes)
  | t :: rest =>
    match unmarshal rest with
    | .ok (sm, trailing) =>
      .ok ({ Version := t.val,
             PrivContent := { OID1 := [1, t.val], OID2 := [2, t.val],
                              Content := sm.PrivContent.Content },
             PubContent := { OID := [3, t.val], Content := sm.PubContent.Content } },
           trailing)
    | .error e => .error e
  | [] => .error ⟨"asn1: syntax error: data truncated"⟩

/-- The structure that `taggedUnmarshal` fills from `t :: container priv pub`. -/
def taggedPdu (t : Byte) (priv pub : Bytes) : smPdu :=
  { Version := t.val,
    PrivContent := { OID1 := [1, t.val], OID2 := [2, t.val], Content := octets priv },
    PubContent := { OID := [3, t.val], Content := octets pub } }

/-- Another password. -/
def otherPassword : GoString := [120]

/-- The sample environment reading the second container format. -/
def taggedEnv : Env Point Certificate :=
  { env [] with Unmarshal := taggedUnmarshal }

end Sample

/-- The digest the hash gives to `x` written in one piece. -/
def Sm3.digestOf (h : Sm3) (x : Bytes) : Bytes :=
  h.Sum (h.Write h.New x) []

/-- The bytes `KDF` returns: the digest after writing `z` and then the
counter `[0, 0, 0, 1]`. -/
def kdfBytes {PK Cert : Type} (env : Env PK Cert) (z : Bytes) : Bytes :=
  env.sm3.Sum (env.sm3.Write (env.sm3.Write env.sm3.New z) [0, 0, 0, 1]) []

/-- The calls `DecryptSm2Key` makes before it reaches the cipher. -/
def decryptPrelude (encryptedData : Bytes) (password : GoString) : List Event :=
  (if encryptedData.length ≠ 32 ∧ encryptedData.length ≠ 48 then
      [Event.base64Decode encryptedData] else []) ++
    [.sm3New, .sm3Write (bytesOfString password), .sm3Write [0, 0, 0, 1], .sm3Sum]

/-- The value of a byte string read as an unsigned big-endian number: the
first byte is the most significant. -/
def bigEndianValue : Bytes → Nat
  | [] => 0
  | b :: bs => b.val * 256 ^ bs.length + bigEndianValue bs

/-- The trace of a computation contains no call of the hash, of the cipher,
or of the certificate parser. -/
def quiet (t : List Event) : Prop :=
  ∀ ev ∈ t, ev ≠ .sm3New ∧ (∀ p, ev ≠ .sm3Write p) ∧ ev ≠ .sm3Sum ∧
    (∀ iv key, ev ≠ .sm4Init iv key) ∧ (∀ d m, ev ≠ .sm4Cbc d m) ∧
    (∀ der, ev ≠ .parseCertificate der)

/-- The variant of `DecryptSm2Key` with the base64 branch removed: no buffer
is prepared and nothing is base64-decoded, the cipher is given the raw
`encryptedData`. -/
def DecryptSm2KeyRaw {PK Cert : Type} (env : Env PK Cert) (password : GoString)
    (encryptedData : Bytes) : Go Bytes :=
  if 32 ≤ encryptedData.length ∧ encryptedData.length ≤ 64 then do
    let h ← KDF env (bytesOfString password)
    let iv ← sliceTo h 16
    let key ← sliceFrom h 16
    let sm4 ← Go.call (.sm4Init iv key) (env.sm4.Init iv key)
    match ← Go.call (.sm4Cbc encryptedData false)
        (env.sm4.Sm4Cbc sm4 encryptedData false) with
    | .error err => Go.logFatal err
    | .ok out => return out
  else
    return []

/-- The call of the base64 decoder that `DecryptSm2Key` makes on
`encryptedData`, if it makes one. -/
def base64Attempt (encryptedData : Bytes) : List Event :=
  if (32 ≤ encryptedData.length ∧ encryptedData.length ≤ 64) ∧
      encryptedData.length ≠ 32 ∧ encryptedData.length ≠ 48 then
    [Event.base64Decode encryptedData]
  else []

/-! ## Sequencing lemmas -/

section Lemmas

variable {α β : Type}

theorem Go.bind_def (x : Go α) (f : α → Go β) : x >>= f = Go.andThen x f := rfl

theorem Go.pure_def (a : α) : (pure a : Go α) = Go.ret a := rfl

theorem Go.andThen_ret (a : α) (f : α → Go β) : Go.andThen (Go.ret a) f = f a := rfl

theorem Go.andThen_call (ev : Event) (a : α) (f : α → Go β) :
    Go.andThen (Go.call ev a) f = ⟨ev :: (f a).trace, (f a).outcome⟩ := rfl

theorem Go.andThen_panic (k : PanicKind) (f : α → Go β) :
    Go.andThen (Go.panic k) f = Go.panic k := rfl

theorem Go.andThen_logFatal (e : GoError) (f : α → Go β) :
    Go.andThen (Go.logFatal e) f = Go.logFatal e := rfl

theorem Go.andThen_of_returned {x : Go α} {a : α} (h : x.outcome = .returned a)
    (f : α → Go β) :
    Go.andThen x f = ⟨x.trace ++ (f a).trace, (f a).outcome⟩ := by
  simp [Go.andThen, h]

theorem Go.andThen_of_fatal {x : Go α} {e : GoError} (h : x.outcome = .fatal e)
    (f : α → Go β) : Go.andThen x f = ⟨x.trace, .fatal e⟩ := by
  simp [Go.andThen, h]

theorem Go.andThen_of_panicked {x : Go α} {k : PanicKind} (h : x.outcome = .panicked k)
    (f : α → Go β) : Go.andThen x f = ⟨x.trace, .panicked k⟩ := by
  simp [Go.andThen, h]

theorem Go.andThen_returned_iff (x : Go α) (f : α → Go β) (b : β) :
    (Go.andThen x f).outcome = .returned b ↔
      ∃ a, x.outcome = .returned a ∧ (f a).outcome = .returned b := by
  cases hx : x.outcome with
  | returned a => simp [Go.andThen, hx]
  | fatal e => simp [Go.andThen, hx]
  | panicked k => simp [Go.andThen, hx]

/-- The left fold of `SetBytes`, started from any accumulator. -/
theorem foldl_bigEndian (bs : Bytes) (acc : Nat) :
    bs.foldl (fun a b => a * 256 + b.val) acc =
      acc * 256 ^ bs.length + bigEndianValue bs := by
  induction bs generalizing acc with
  | nil => simp [bigEndianValue]
  | cons b bs ih =>
    simp only [List.foldl_cons, ih, bigEndianValue, List.length_cons]
    ring

/-- `SetBytes` computes the big-endian value. -/
theorem SetBytes_eq_bigEndianValue (bs : Bytes) :
    SetBytes bs = Int.ofNat (bigEndianValue bs) := by
  simp [SetBytes, foldl_bigEndian]

/-- Leading zero bytes do not change the big-endian value. -/
theorem bigEndianValue_leading_zeros (k : Nat) (bs : Bytes) :
    bigEndianValue (List.replicate k 0 ++ bs) = bigEndianValue bs := by
  induction k with
  | zero => simp
  | succ k ih => simp [List.replicate_succ, bigEndianValue, ih]

end Lemmas

section Proofs

variable {PK Cert : Type}

/-- `KDF` in closed form: four calls of the hash, then the digest. -/
theorem KDF_eq (env : Env PK Cert) (z : Bytes) :
    KDF env z = ⟨[.sm3New, .sm3Write z, .sm3Write [0, 0, 0, 1], .sm3Sum],
      .returned (kdfBytes env z)⟩ := rfl

/-- `DecryptSm2Key` outside the length window: the nil branch. -/
theorem DecryptSm2Key_out_of_range (env : Env PK Cert) (password : GoString)
    (encryptedData : Bytes)
    (h : ¬ (32 ≤ encryptedData.length ∧ encryptedData.length ≤ 64)) :
    DecryptSm2Key env password encryptedData = ⟨[], .returned []⟩ := by
  simp only [DecryptSm2Key, h, if_false]
  rfl

/-- `DecryptSm2Key` inside the length window when the digest is shorter than
16 bytes: the slice expression panics. -/
theorem DecryptSm2Key_short_digest (env : Env PK Cert) (password : GoString)
    (encryptedData : Bytes)
    (h : 32 ≤ encryptedData.length ∧ encryptedData.length ≤ 64)
    (hd : (kdfBytes env (bytesOfString password)).length < 16) :
    DecryptSm2Key env password encryptedData =
      ⟨decryptPrelude encryptedData password, .panicked .sliceBounds⟩ := by
  have hd2 : ¬ 16 ≤ (kdfBytes env (bytesOfString password)).length := by omega
  simp only [DecryptSm2Key, h, and_self, if_true, Go.bind_def, Go.pure_def, KDF_eq,
    decryptPrelude]
  by_cases hb : encryptedData.length ≠ 32 ∧ encryptedData.length ≠ 48
  · simp [hb, Go.andThen, Go.call, Go.ret, Go.panic, sliceTo, hd2]
  · simp [hb, Go.andThen, Go.call, Go.ret, Go.panic, sliceTo, hd2]

/-- `DecryptSm2Key` inside the length window when the digest has at least 16
bytes: the cipher is set up with the two halves and run on the raw data. -/
theorem DecryptSm2Key_in_range (env : Env PK Cert) (password : GoString)
    (encryptedData : Bytes)
    (h : 32 ≤ encryptedData.length ∧ encryptedData.length ≤ 64)
    (hd : 16 ≤ (kdfBytes env (bytesOfString password)).length) :
    DecryptSm2Key env password encryptedData =
      ⟨decryptPrelude encryptedData password ++
          [.sm4Init ((kdfBytes env (bytesOfString password)).take 16)
              ((kdfBytes env (bytesOfString password)).drop 16),
            .sm4Cbc encryptedData false] ++
          (match env.sm4.Sm4Cbc
              (env.sm4.Init ((kdfBytes env (bytesOfString password)).take 16)
                ((kdfBytes env (bytesOfString password)).drop 16)) encryptedData false with
            | .error e => [.logFatal e]
            | .ok _ => []),
        match env.sm4.Sm4Cbc
            (env.sm4.Init ((kdfBytes env (bytesOfString password)).take 16)
              ((kdfBytes env (bytesOfString password)).drop 16)) encryptedData false with
          | .error e => .fatal e
          | .ok out => .returned out⟩ := by
  simp only [DecryptSm2Key, h, and_self, if_true, Go.bind_def, Go.pure_def, KDF_eq,
    decryptPrelude]
  cases hc : env.sm4.Sm4Cbc
      (env.sm4.Init ((kdfBytes env (bytesOfString password)).take 16)
        ((kdfBytes env (bytesOfString password)).drop 16)) encryptedData false with
  | error e =>
    by_cases hb : encryptedData.length ≠ 32 ∧ encryptedData.length ≠ 48
    · simp [hb, Go.andThen, Go.call, Go.ret, Go.logFatal, sliceTo, sliceFrom, hd, hc]
    · simp [hb, Go.andThen, Go.call, Go.ret, Go.logFatal, sliceTo, sliceFrom, hd, hc]
  | ok out =>
    by_cases hb : encryptedData.length ≠ 32 ∧ encryptedData.length ≠ 48
    · simp [hb, Go.andThen, Go.call, Go.ret, Go.logFatal, sliceTo, sliceFrom, hd, hc]
    · simp [hb, Go.andThen, Go.call, Go.ret, Go.logFatal, sliceTo, sliceFrom, hd, hc]

/-- `Decode` when the ASN.1 decoder reports an error. -/
theorem Decode_unmarshal_error (env : Env PK Cert) (smData : Bytes) (password : GoString)
    (e : GoError) (h : env.Unmarshal smData = .error e) :
    Decode env smData password =
      ⟨[.asn1Unmarshal smData], .returned ⟨none, none, some e⟩⟩ := by
  simp [Decode, Go.bind_def, Go.pure_def, Go.andThen_call, h, Go.ret]

/-- `Decode` on a well-formed container: the rest of the function after the
two early returns. -/
theorem Decode_well_formed (env : Env PK Cert) (smData : Bytes) (password : GoString)
    (sm : smPdu) (h : env.Unmarshal smData = .ok (sm, [])) :
    Decode env smData password =
      Go.andThen (Go.call (.asn1Unmarshal smData) ())
        (fun _ => Go.andThen (DecryptSm2Key env password sm.PrivContent.Content.Bytes)
          (fun dBytes =>
            Go.andThen (Go.call (.parseCertificate sm.PubContent.Content.Bytes)
                (env.ParseCertificate sm.PubContent.Content.Bytes))
              (fun r => match r with
                | .error err =>
                  Go.andThen (Go.logFatal err : Go Unit)
                    (fun _ => Go.ret ⟨none, none, some err⟩)
                | .ok cer =>
                  Go.andThen (deref cer) (fun c =>
                    Go.andThen (assertSm2Ptr (env.certPublicKey c)) (fun pub =>
                      Go.andThen (deref pub) (fun pk =>
                        Go.ret ⟨some { PublicKey := pk, D := SetBytes dBytes },
                          cer, none⟩)))))) := by
  simp only [Decode, Go.bind_def, Go.pure_def, Go.andThen_call, h]
  simp

/-- `Decode` when the ASN.1 decoder leaves a non-empty rest. -/
theorem Decode_trailing (env : Env PK Cert) (smData : Bytes) (password : GoString)
    (sm : smPdu) (trailing : Bytes)
    (h : env.Unmarshal smData = .ok (sm, trailing)) (ht : trailing ≠ []) :
    Decode env smData password =
      ⟨[.asn1Unmarshal smData],
        .returned ⟨none, none, some (errorsNew trailingDataMsg)⟩⟩ := by
  simp [Decode, Go.bind_def, Go.pure_def, Go.andThen_call, h, ht, Go.ret]

/-- What `Decode` returns on a well-formed container, when it returns: the
decryption returned, the parser gave a certificate whose public key is an SM2
key, and the result is built from these. -/
theorem Decode_well_formed_returned (env : Env PK Cert) (smData : Bytes)
    (password : GoString) (sm : smPdu) (h : env.Unmarshal smData = .ok (sm, []))
    (r : DecodeResult PK Cert) (hr : (Decode env smData password).outcome = .returned r) :
    ∃ dBytes c pk,
      (DecryptSm2Key env password sm.PrivContent.Content.Bytes).outcome = .returned dBytes ∧
      env.ParseCertificate sm.PubContent.Content.Bytes = .ok (some c) ∧
      env.certPublicKey c = .sm2Ptr (some pk) ∧
      r = ⟨some { PublicKey := pk, D := SetBytes dBytes }, some c, none⟩ := by
  rw [Decode_well_formed env smData password sm h] at hr
  simp only [Go.andThen_call] at hr
  obtain ⟨dBytes, hd, hr⟩ := (Go.andThen_returned_iff _ _ _).1 hr
  refine ⟨dBytes, ?_⟩
  cases hp : env.ParseCertificate sm.PubContent.Content.Bytes with
  | error e => simp [hp, Go.andThen, Go.logFatal] at hr
  | ok cer =>
    simp only [hp] at hr
    cases cer with
    | none => simp [deref, Go.andThen, Go.panic] at hr
    | some c =>
      simp only [deref, Go.andThen_ret] at hr
      cases hk : env.certPublicKey c with
      | nilIface => simp [hk, assertSm2Ptr, Go.andThen, Go.panic] at hr
      | other n => simp [hk, assertSm2Ptr, Go.andThen, Go.panic] at hr
      | sm2Ptr pub =>
        simp only [hk, assertSm2Ptr, Go.andThen_ret] at hr
        cases pub with
        | none => simp [Go.andThen, Go.panic] at hr
        | some pk =>
          simp only [Go.andThen_ret, Go.ret] at hr
          refine ⟨c, pk, hd, rfl, hk, ?_⟩
          injection hr with hr
          exact hr.symm

/-- The three ways in which `Decode` returns. -/
theorem Decode_returned_cases (env : Env PK Cert) (smData : Bytes)
    (password : GoString) (r : DecodeResult PK Cert)
    (hr : (Decode env smData password).outcome = .returned r) :
    (∃ e, env.Unmarshal smData = .error e ∧ r = ⟨none, none, some e⟩) ∨
    (∃ sm trailing, env.Unmarshal smData = .ok (sm, trailing) ∧ trailing ≠ [] ∧
      r = ⟨none, none, some (errorsNew trailingDataMsg)⟩) ∨
    (∃ sm dBytes c pk, env.Unmarshal smData = .ok (sm, []) ∧
      (DecryptSm2Key env password sm.PrivContent.Content.Bytes).outcome = .returned dBytes ∧
      env.ParseCertificate sm.PubContent.Content.Bytes = .ok (some c) ∧
      env.certPublicKey c = .sm2Ptr (some pk) ∧
      r = ⟨some { PublicKey := pk, D := SetBytes dBytes }, some c, none⟩) := by
  cases hu : env.Unmarshal smData with
  | error e =>
    rw [Decode_unmarshal_error env smData password e hu] at hr
    injection hr with hr
    exact Or.inl ⟨e, rfl, hr.symm⟩
  | ok v =>
    obtain ⟨sm, trailing⟩ := v
    by_cases ht : trailing = []
    · subst ht
      obtain ⟨dBytes, c, pk, h1, h2, h3, h4⟩ :=
        Decode_well_formed_returned env smData password sm hu r hr
      exact Or.inr (Or.inr ⟨sm, dBytes, c, pk, rfl, h1, h2, h3, h4⟩)
    · rw [Decode_trailing env smData password sm trailing hu ht] at hr
      injection hr with hr
      exact Or.inr (Or.inl ⟨sm, trailing, rfl, ht, hr.symm⟩)

/-- C1: when the ASN.1 decode of `smData` succeeds and leaves a non-empty
rest, `Decode` returns the error "go-pkcs12: trailing data found" with a nil
key and a nil certificate, and the only call it has made is the ASN.1 decode:
nothing is decrypted and no certificate is parsed. -/
theorem Decode_trailing_data (env : Env PK Cert) (smData : Bytes) (password : GoString)
    (sm : smPdu) (trailing : Bytes)
    (h : env.Unmarshal smData = .ok (sm, trailing)) (ht : trailing ≠ []) :
    Decode env smData password =
        ⟨[.asn1Unmarshal smData],
          .returned ⟨none, none, some (errorsNew trailingDataMsg)⟩⟩ ∧
      (errorsNew trailingDataMsg).msg = "go-pkcs12: trailing data found" ∧
      quiet (Decode env smData password).trace := by
  have hD := Decode_trailing env smData password sm trailing h ht
  refine ⟨hD, rfl, ?_⟩
  rw [hD]
  intro ev hev
  simp at hev
  subst hev
  simp

/-- The sample container followed by one more byte is decoded with a rest
and rejected. -/
theorem Decode_trailing_data_witness :
    Sample.unmarshal (Sample.container (List.replicate 32 5) Sample.certBytes ++ [0]) =
        .ok (Sample.pdu (List.replicate 32 5) Sample.certBytes, [0]) ∧
      Decode (Sample.env [])
          (Sample.container (List.replicate 32 5) Sample.certBytes ++ [0]) Sample.password =
        ⟨[.asn1Unmarshal (Sample.container (List.replicate 32 5) Sample.certBytes ++ [0])],
          .returned ⟨none, none, some (errorsNew trailingDataMsg)⟩⟩ :=
  ⟨rfl,
   (Decode_trailing_data (Sample.env [])
      (Sample.container (List.replicate 32 5) Sample.certBytes ++ [0]) Sample.password
      (Sample.pdu (List.replicate 32 5) Sample.certBytes) [0] (by rfl) (by decide)).1⟩

/-- C2: whenever `Decode` returns a non-nil error, the returned private key
and certificate are both nil; whenever it returns a nil error, both are
non-nil. -/
theorem Decode_error_xor_result (env : Env PK Cert) (smData : Bytes)
    (password : GoString) (r : DecodeResult PK Cert)
    (hr : (Decode env smData password).outcome = .returned r) :
    (r.err ≠ none → r.privateKey = none ∧ r.certificate = none) ∧
    (r.err = none → r.privateKey ≠ none ∧ r.certificate ≠ none) := by
  rcases Decode_returned_cases env smData password r hr with
    ⟨e, _, rfl⟩ | ⟨sm, trailing, _, _, rfl⟩ | ⟨sm, dBytes, c, pk, _, _, _, _, rfl⟩ <;> simp

/-- The sample container is decoded without error, and the key and the
certificate are there. -/
theorem Decode_error_xor_result_witness :
    (Decode (Sample.env []) (Sample.container (List.replicate 32 5) Sample.certBytes)
        Sample.password).outcome = .returned Sample.decoded ∧
    (Sample.decoded.err ≠ none →
      Sample.decoded.privateKey = none ∧ Sample.decoded.certificate = none) ∧
    (Sample.decoded.err = none →
      Sample.decoded.privateKey ≠ none ∧ Sample.decoded.certificate ≠ none) :=
  ⟨by rfl,
    Decode_error_xor_result (Sample.env [])
      (Sample.container (List.replicate 32 5) Sample.certBytes) Sample.password
      Sample.decoded (by rfl)⟩

/-- C3, disproved as stated: a well-formed container whose private content
is 31 bytes long is not rejected; `Decode` returns a nil error and a private
key with `D = 0`. -/
theorem Decode_accepts_length_31 :
    (Sample.env []).Unmarshal (Sample.container (List.replicate 31 5) Sample.certBytes) =
        .ok (Sample.pdu (List.replicate 31 5) Sample.certBytes, []) ∧
      (Sample.pdu (List.replicate 31 5)
        Sample.certBytes).PrivContent.Content.Bytes.length = 31 ∧
      (Decode (Sample.env []) (Sample.container (List.replicate 31 5) Sample.certBytes)
          Sample.password).outcome =
        .returned ⟨some ⟨⟨7, 9⟩, 0⟩, some ⟨Sample.certBytes, .sm2Ptr (some ⟨7, 9⟩)⟩, none⟩ :=
  ⟨by rfl, by rfl, by rfl⟩

/-- C3, as amended: on a well-formed container whose private content is 31 or
65 bytes long the length check makes the decryption yield the empty buffer,
and `Decode` does not reject: whenever it returns, the error is nil and the
key has `D = 0`, and it does return so when the public content parses to a
certificate with an SM2 key, after the ASN.1 decode and the certificate parse
as its only calls.  On a content of 32 or 64 bytes the length check does not
reject: the decrypt path is taken, the hash being called. -/
theorem Decode_length_check (env : Env PK Cert) (smData : Bytes) (password : GoString)
    (sm : smPdu) (h : env.Unmarshal smData = .ok (sm, [])) :
    ((sm.PrivContent.Content.Bytes.length = 31 ∨
        sm.PrivContent.Content.Bytes.length = 65) →
      (∀ r, (Decode env smData password).outcome = .returned r →
        r.err = none ∧ ∃ pk, r.privateKey = some ⟨pk, 0⟩) ∧
      (∀ c pk, env.ParseCertificate sm.PubContent.Content.Bytes = .ok (some c) →
        env.certPublicKey c = .sm2Ptr (some pk) →
        Decode env smData password =
          ⟨[.asn1Unmarshal smData, .parseCertificate sm.PubContent.Content.Bytes],
            .returned ⟨some ⟨pk, 0⟩, some c, none⟩⟩)) ∧
    ((sm.PrivContent.Content.Bytes.length = 32 ∨
        sm.PrivContent.Content.Bytes.length = 64) →
      Event.sm3New ∈ (DecryptSm2Key env password sm.PrivContent.Content.Bytes).trace ∧
      Event.sm3New ∈ (Decode env smData password).trace) := by
  constructor
  · intro hl
    have hout : ¬ (32 ≤ sm.PrivContent.Content.Bytes.length ∧
        sm.PrivContent.Content.Bytes.length ≤ 64) := by omega
    have hdec := DecryptSm2Key_out_of_range env password sm.PrivContent.Content.Bytes hout
    constructor
    · intro r hr
      obtain ⟨dBytes, c, pk, h1, _, _, h4⟩ :=
        Decode_well_formed_returned env smData password sm h r hr
      rw [hdec] at h1
      injection h1 with h1
      subst h1
      subst h4
      exact ⟨rfl, pk, rfl⟩
    · intro c pk hp hk
      rw [Decode_well_formed env smData password sm h, hdec]
      simp [Go.andThen, Go.call, Go.ret, hp, hk, deref, assertSm2Ptr, SetBytes]
  · intro hl
    have hin : 32 ≤ sm.PrivContent.Content.Bytes.length ∧
        sm.PrivContent.Content.Bytes.length ≤ 64 := by omega
    have hmem : Event.sm3New ∈
        (DecryptSm2Key env password sm.PrivContent.Content.Bytes).trace := by
      by_cases hd : 16 ≤ (kdfBytes env (bytesOfString password)).length
      · rw [DecryptSm2Key_in_range env password _ hin hd]
        simp [decryptPrelude]
      · rw [DecryptSm2Key_short_digest env password _ hin (by omega)]
        simp [decryptPrelude]
    refine ⟨hmem, ?_⟩
    rw [Decode_well_formed env smData password sm h]
    simp only [Go.andThen_call]
    apply List.mem_cons_of_mem
    cases ho : (DecryptSm2Key env password sm.PrivContent.Content.Bytes).outcome with
    | returned dBytes =>
      rw [Go.andThen_of_returned ho]
      exact List.mem_append_left _ hmem
    | fatal e =>
      rw [Go.andThen_of_fatal ho]
      exact hmem
    | panicked k =>
      rw [Go.andThen_of_panicked ho]
      exact hmem

/-- The amended statement at the sample container with a private content of
31 bytes. -/
theorem Decode_length_check_witness :
    (Sample.env []).Unmarshal (Sample.container (List.replicate 31 5) Sample.certBytes) =
        .ok (Sample.pdu (List.replicate 31 5) Sample.certBytes, []) ∧
      Decode (Sample.env []) (Sample.container (List.replicate 31 5) Sample.certBytes)
          Sample.password =
        ⟨[.asn1Unmarshal (Sample.container (List.replicate 31 5) Sample.certBytes),
            .parseCertificate Sample.certBytes],
          .returned ⟨some ⟨⟨7, 9⟩, 0⟩,
            some ⟨Sample.certBytes, .sm2Ptr (some ⟨7, 9⟩)⟩, none⟩⟩ :=
  ⟨by rfl,
    ((Decode_length_check (Sample.env [])
      (Sample.container (List.replicate 31 5) Sample.certBytes) Sample.password
      (Sample.pdu (List.replicate 31 5) Sample.certBytes) (by rfl)).1
        (Or.inl (by rfl))).2 ⟨Sample.certBytes, .sm2Ptr (some ⟨7, 9⟩)⟩ ⟨7, 9⟩
          (by rfl) (by rfl)⟩

/-- C4: when the length of `encryptedData` is below 32 or above 64,
`DecryptSm2Key` returns nil and has called nothing (neither the hash that
`KDF` uses nor the cipher).  When the length is in [32, 64] it takes the
decrypt path and is never the nil branch: the four hash calls of `KDF` are
made; with a digest of at least 16 bytes the cipher is then set up with the
two pieces of the digest and run on `encryptedData` with padding removal off,
these two calls are in the trace, and the function ends as the cipher does
(its output returned, or its error passed to `log.Fatal`); with a shorter
digest the slice expression panics after the hash calls.  In every case a
value that is returned in the window is an output of the cipher. -/
theorem DecryptSm2Key_length_gate (env : Env PK Cert) (password : GoString)
    (encryptedData : Bytes) :
    ((encryptedData.length < 32 ∨ 64 < encryptedData.length) →
      DecryptSm2Key env password encryptedData = ⟨[], .returned []⟩) ∧
    ((32 ≤ encryptedData.length ∧ encryptedData.length ≤ 64) →
      DecryptSm2Key env password encryptedData ≠ ⟨[], .returned []⟩ ∧
      Event.sm3New ∈ (DecryptSm2Key env password encryptedData).trace ∧
      (DecryptSm2Key env password encryptedData).trace ≠ [] ∧
      (∃ rest, (DecryptSm2Key env password encryptedData).trace =
        decryptPrelude encryptedData password ++ rest) ∧
      (16 ≤ (kdfBytes env (bytesOfString password)).length →
        DecryptSm2Key env password encryptedData =
          ⟨decryptPrelude encryptedData password ++
              [.sm4Init ((kdfBytes env (bytesOfString password)).take 16)
                  ((kdfBytes env (bytesOfString password)).drop 16),
                .sm4Cbc encryptedData false] ++
              (match env.sm4.Sm4Cbc
                  (env.sm4.Init ((kdfBytes env (bytesOfString password)).take 16)
                    ((kdfBytes env (bytesOfString password)).drop 16))
                  encryptedData false with
                | .error e => [.logFatal e]
                | .ok _ => []),
            match env.sm4.Sm4Cbc
                (env.sm4.Init ((kdfBytes env (bytesOfString password)).take 16)
                  ((kdfBytes env (bytesOfString password)).drop 16))
                encryptedData false with
              | .error e => .fatal e
              | .ok out => .returned out⟩ ∧
        Event.sm4Init ((kdfBytes env (bytesOfString password)).take 16)
            ((kdfBytes env (bytesOfString password)).drop 16) ∈
          (DecryptSm2Key env password encryptedData).trace ∧
        Event.sm4Cbc encryptedData false ∈
          (DecryptSm2Key env password encryptedData).trace) ∧
      ((kdfBytes env (bytesOfString password)).length < 16 →
        DecryptSm2Key env password encryptedData =
          ⟨decryptPrelude encryptedData password, .panicked .sliceBounds⟩) ∧
      ∀ out, (DecryptSm2Key env password encryptedData).outcome = .returned out →
        Event.sm4Cbc encryptedData false ∈
            (DecryptSm2Key env password encryptedData).trace ∧
          ∃ iv key, env.sm4.Sm4Cbc (env.sm4.Init iv key) encryptedData false = .ok out) := by
  constructor
  · intro hl
    exact DecryptSm2Key_out_of_range env password encryptedData (by omega)
  · intro hin
    have hne : (DecryptSm2Key env password encryptedData).trace ≠ [] →
        DecryptSm2Key env password encryptedData ≠ ⟨[], .returned []⟩ := by
      intro ht hnil
      exact ht (by rw [hnil])
    by_cases hd : 16 ≤ (kdfBytes env (bytesOfString password)).length
    · have hD := DecryptSm2Key_in_range env password encryptedData hin hd
      refine ⟨hne (by rw [hD]; simp [decryptPrelude]), ?_, ?_, ?_, ?_, ?_, ?_⟩
      · rw [hD]
        simp [decryptPrelude]
      · rw [hD]
        simp [decryptPrelude]
      · rw [hD]
        exact ⟨_, List.append_assoc _ _ _⟩
      · intro _
        refine ⟨hD, ?_, ?_⟩
        · rw [hD]
          simp
        · rw [hD]
          simp
      · intro hlt
        omega
      · intro out ho
        rw [hD] at ho ⊢
        refine ⟨by simp, (kdfBytes env (bytesOfString password)).take 16,
          (kdfBytes env (bytesOfString password)).drop 16, ?_⟩
        cases hc : env.sm4.Sm4Cbc
            (env.sm4.Init ((kdfBytes env (bytesOfString password)).take 16)
              ((kdfBytes env (bytesOfString password)).drop 16)) encryptedData false with
        | error e => simp [hc] at ho
        | ok o =>
          simp only [hc] at ho
          injection ho with ho
          rw [ho]
    · have hD := DecryptSm2Key_short_digest env password encryptedData hin (by omega)
      refine ⟨hne (by rw [hD]; simp [decryptPrelude]), ?_, ?_, ?_, ?_, ?_, ?_⟩
      · rw [hD]
        simp [decryptPrelude]
      · rw [hD]
        simp [decryptPrelude]
      · rw [hD]
        exact ⟨[], (List.append_nil _).symm⟩
      · intro h16
        exact absurd h16 hd
      · intro _
        exact hD
      · intro out ho
        rw [hD] at ho
        simp at ho

/-- The two branches on sample inputs: 31 bytes take the nil branch with no
call at all; on 32 bytes the hash is called, then the cipher is set up with
the two halves of the digest and run on the 32 bytes, and its output is
returned. -/
theorem DecryptSm2Key_length_gate_witness :
    DecryptSm2Key (Sample.env []) Sample.password (List.replicate 31 5) =
        ⟨[], .returned []⟩ ∧
      DecryptSm2Key (Sample.env []) Sample.password (List.replicate 32 5) =
        ⟨[.sm3New, .sm3Write Sample.password, .sm3Write [0, 0, 0, 1], .sm3Sum,
            .sm4Init ((Sample.digest [112, 119, 0, 0, 0, 1]).take 16)
              ((Sample.digest [112, 119, 0, 0, 0, 1]).drop 16),
            .sm4Cbc (List.replicate 32 5) false],
          .returned (List.replicate 32 37)⟩ ∧
      Event.sm4Init ((kdfBytes (Sample.env []) (bytesOfString Sample.password)).take 16)
          ((kdfBytes (Sample.env []) (bytesOfString Sample.password)).drop 16) ∈
        (DecryptSm2Key (Sample.env []) Sample.password (List.replicate 32 5)).trace ∧
      Event.sm4Cbc (List.replicate 32 5) false ∈
        (DecryptSm2Key (Sample.env []) Sample.password (List.replicate 32 5)).trace :=
  ⟨(DecryptSm2Key_length_gate (Sample.env []) Sample.password (List.replicate 31 5)).1
      (Or.inl (by decide)),
    ((((DecryptSm2Key_length_gate (Sample.env []) Sample.password
      (List.replicate 32 5)).2 ⟨by decide, by decide⟩).2.2.2.2.1 (by decide)).1).trans
        (by rfl),
    (((DecryptSm2Key_length_gate (Sample.env []) Sample.password
      (List.replicate 32 5)).2 ⟨by decide, by decide⟩).2.2.2.2.1 (by decide)).2.1,
    (((DecryptSm2Key_length_gate (Sample.env []) Sample.password
      (List.replicate 32 5)).2 ⟨by decide, by decide⟩).2.2.2.2.1 (by decide)).2.2⟩

/-- C5: for a hash whose successive writes amount to one write of the
concatenation, `KDF z` returns, unmodified, the digest of `z ++ [0, 0, 0, 1]`;
the result depends on `z` only, and its length is the digest size of the hash
whenever the hash has a fixed digest size `n` (32 for SM3). -/
theorem KDF_digest (env : Env PK Cert) (z : Bytes)
    (hw : ∀ s a b, env.sm3.Write (env.sm3.Write s a) b = env.sm3.Write s (a ++ b)) :
    (KDF env z).outcome = .returned (env.sm3.digestOf (z ++ [0, 0, 0, 1])) ∧
    (∀ z2, z2 = z → KDF env z2 = KDF env z) ∧
    (∀ n, (∀ s, (env.sm3.Sum s []).length = n) →
      ∃ out, (KDF env z).outcome = .returned out ∧ out.length = n) := by
  refine ⟨?_, ?_, ?_⟩
  · rw [KDF_eq]
    simp [kdfBytes, Sm3.digestOf, hw]
  · intro z2 hz
    rw [hz]
  · intro n hn
    exact ⟨kdfBytes env z, by rw [KDF_eq], hn _⟩

/-- The sample hash satisfies the hypothesis, and `KDF` of the empty input
is the 32-byte digest of the counter. -/
theorem KDF_digest_witness :
    (∀ s a b, (Sample.env []).sm3.Write ((Sample.env []).sm3.Write s a) b =
        (Sample.env []).sm3.Write s (a ++ b)) ∧
      (KDF (Sample.env []) []).outcome =
        .returned ((Sample.env []).sm3.digestOf ([] ++ [0, 0, 0, 1])) ∧
      ∃ out, (KDF (Sample.env []) []).outcome = .returned out ∧ out.length = 32 :=
  ⟨fun s a b => List.append_assoc s a b,
    (KDF_digest (Sample.env []) [] (fun s a b => List.append_assoc s a b)).1,
    (KDF_digest (Sample.env []) [] (fun s a b => List.append_assoc s a b)).2.2 32
      (fun s => by
        show ([] ++ Sample.digest s).length = 32
        simp [Sample.digest])⟩

/-- C6: with a length in [32, 64], a digest `h = KDF(password bytes)` of at
least 16 bytes, and a cipher that succeeds, `DecryptSm2Key` returns the
cipher's CBC decryption of the raw `encryptedData` with padding removal off,
the cipher being set up with `h[:16]` as first argument (iv) and `h[16:]` as
second (key); the two pieces make up `h`, the iv has 16 bytes, and the key has
16 bytes when the digest has 32. -/
theorem DecryptSm2Key_cbc (env : Env PK Cert) (password : GoString)
    (encryptedData h out : Bytes)
    (hlen : 32 ≤ encryptedData.length ∧ encryptedData.length ≤ 64)
    (hk : (KDF env (bytesOfString password)).outcome = .returned h)
    (h16 : 16 ≤ h.length)
    (hc : env.sm4.Sm4Cbc (env.sm4.Init (h.take 16) (h.drop 16)) encryptedData false =
      .ok out) :
    (DecryptSm2Key env password encryptedData).outcome = .returned out ∧
    Event.sm4Init (h.take 16) (h.drop 16) ∈
      (DecryptSm2Key env password encryptedData).trace ∧
    Event.sm4Cbc encryptedData false ∈ (DecryptSm2Key env password encryptedData).trace ∧
    h.take 16 ++ h.drop 16 = h ∧ (h.take 16).length = 16 ∧
    (h.length = 32 → (h.drop 16).length = 16) := by
  have hh : h = kdfBytes env (bytesOfString password) := by
    rw [KDF_eq] at hk
    injection hk with hk
    exact hk.symm
  subst hh
  rw [DecryptSm2Key_in_range env password _ hlen h16, hc]
  refine ⟨rfl, by simp, by simp, List.take_append_drop _ _, ?_, ?_⟩
  · simp [List.length_take, h16]
  · intro h32
    simp [List.length_drop, h32]

/-- The sample cipher on 32 bytes under the sample password. -/
theorem DecryptSm2Key_cbc_witness :
    (KDF (Sample.env []) (bytesOfString Sample.password)).outcome =
        .returned (Sample.digest [112, 119, 0, 0, 0, 1]) ∧
      (DecryptSm2Key (Sample.env []) Sample.password (List.replicate 32 5)).outcome =
        .returned (List.replicate 32 37) :=
  ⟨by rfl,
    (DecryptSm2Key_cbc (Sample.env []) Sample.password (List.replicate 32 5)
      (Sample.digest [112, 119, 0, 0, 0, 1]) (List.replicate 32 37)
      ⟨by decide, by decide⟩ (by rfl) (by decide) (by rfl)).1⟩

/-- C7: when `Decode` returns without error, the returned certificate is
exactly what the parser made of the public-section content bytes, and its
public key is the public key embedded in the returned private key. -/
theorem Decode_public_key_consistent (env : Env PK Cert) (smData : Bytes)
    (password : GoString) (r : DecodeResult PK Cert)
    (hr : (Decode env smData password).outcome = .returned r) (he : r.err = none) :
    ∃ sm key c, env.Unmarshal smData = .ok (sm, []) ∧
      r.privateKey = some key ∧ r.certificate = some c ∧
      env.ParseCertificate sm.PubContent.Content.Bytes = .ok r.certificate ∧
      env.certPublicKey c = .sm2Ptr (some key.PublicKey) := by
  rcases Decode_returned_cases env smData password r hr with
    ⟨e, _, rfl⟩ | ⟨sm, trailing, _, _, rfl⟩ | ⟨sm, dBytes, c, pk, h1, _, h3, h4, rfl⟩
  · simp at he
  · simp at he
  · exact ⟨sm, _, c, h1, rfl, rfl, h3, h4⟩

/-- The sample container: the certificate is the parse of `certBytes` and
carries the point (7, 9), as does the key. -/
theorem Decode_public_key_consistent_witness :
    (Decode (Sample.env []) (Sample.container (List.replicate 32 5) Sample.certBytes)
        Sample.password).outcome = .returned Sample.decoded ∧
    ∃ sm key c,
      (Sample.env []).Unmarshal
          (Sample.container (List.replicate 32 5) Sample.certBytes) = .ok (sm, []) ∧
        Sample.decoded.privateKey = some key ∧ Sample.decoded.certificate = some c ∧
        (Sample.env []).ParseCertificate sm.PubContent.Content.Bytes =
          .ok Sample.decoded.certificate ∧
        (Sample.env []).certPublicKey c = .sm2Ptr (some key.PublicKey) :=
  ⟨by rfl,
    Decode_public_key_consistent (Sample.env [])
      (Sample.container (List.replicate 32 5) Sample.certBytes) Sample.password
      Sample.decoded (by rfl) (by rfl)⟩

/-- C8: when `Decode` returns without error, `D` of the returned key is the
unsigned big-endian value of the bytes that `DecryptSm2Key` returned for the
password and the private-section content; leading zero bytes of that buffer
do not change the value, and the empty buffer gives 0. -/
theorem Decode_scalar (env : Env PK Cert) (smData : Bytes)
    (password : GoString) (r : DecodeResult PK Cert)
    (hr : (Decode env smData password).outcome = .returned r) (he : r.err = none) :
    (∃ sm key dBytes, env.Unmarshal smData = .ok (sm, []) ∧
      r.privateKey = some key ∧
      (DecryptSm2Key env password sm.PrivContent.Content.Bytes).outcome =
        .returned dBytes ∧
      key.D = Int.ofNat (bigEndianValue dBytes)) ∧
    (∀ k bs, SetBytes (List.replicate k 0 ++ bs) = SetBytes bs) ∧
    SetBytes [] = 0 := by
  refine ⟨?_, ?_, rfl⟩
  · rcases Decode_returned_cases env smData password r hr with
      ⟨e, _, rfl⟩ | ⟨sm, trailing, _, _, rfl⟩ | ⟨sm, dBytes, c, pk, h1, h2, _, _, rfl⟩
    · simp at he
    · simp at he
    · exact ⟨sm, _, dBytes, h1, rfl, h2, SetBytes_eq_bigEndianValue dBytes⟩
  · intro k bs
    rw [SetBytes_eq_bigEndianValue, SetBytes_eq_bigEndianValue,
      bigEndianValue_leading_zeros]

/-- The sample container: `D` is the value of the 32 decrypted bytes. -/
theorem Decode_scalar_witness :
    (Decode (Sample.env []) (Sample.container (List.replicate 32 5) Sample.certBytes)
        Sample.password).outcome = .returned Sample.decoded ∧
    ∃ sm key dBytes,
      (Sample.env []).Unmarshal
          (Sample.container (List.replicate 32 5) Sample.certBytes) = .ok (sm, []) ∧
        Sample.decoded.privateKey = some key ∧
        (DecryptSm2Key (Sample.env []) Sample.password
          sm.PrivContent.Content.Bytes).outcome = .returned dBytes ∧
        key.D = Int.ofNat (bigEndianValue dBytes) :=
  ⟨by rfl,
    (Decode_scalar (Sample.env [])
      (Sample.container (List.replicate 32 5) Sample.certBytes) Sample.password
      Sample.decoded (by rfl) (by rfl)).1⟩

/-- C9, disproved as stated: on a well-formed container whose certificate
carries a key of another type, `Decode` returns nothing, neither an error nor
a key: the type assertion panics. -/
theorem Decode_other_key_type_panics :
    (Sample.env []).Unmarshal
        (Sample.container (List.replicate 32 5) Sample.rsaCertBytes) =
        .ok (Sample.pdu (List.replicate 32 5) Sample.rsaCertBytes, []) ∧
      (Sample.env []).ParseCertificate Sample.rsaCertBytes =
        .ok (some ⟨Sample.rsaCertBytes, .other "*rsa.PublicKey"⟩) ∧
      (Decode (Sample.env []) (Sample.container (List.replicate 32 5) Sample.rsaCertBytes)
          Sample.password).outcome = .panicked .typeAssertion ∧
      ¬ ∃ r, (Decode (Sample.env [])
          (Sample.container (List.replicate 32 5) Sample.rsaCertBytes)
          Sample.password).outcome = .returned r := by
  refine ⟨by rfl, by rfl, by rfl, ?_⟩
  rintro ⟨r, hr⟩
  have hp : (Decode (Sample.env [])
      (Sample.container (List.replicate 32 5) Sample.rsaCertBytes)
      Sample.password).outcome = .panicked .typeAssertion := by rfl
  rw [hp] at hr
  exact Outcome.noConfusion hr

/-- C9, as amended: on a well-formed container whose public content parses to
a certificate whose public key is not an SM2 public key, `Decode` never
returns to its caller, with an error or otherwise: once `DecryptSm2Key` has
returned, the type assertion on the key raises a run-time panic, and when
`DecryptSm2Key` ends the process or panics, `Decode` ends the same way. -/
theorem Decode_other_key_type (env : Env PK Cert) (smData : Bytes) (password : GoString)
    (sm : smPdu) (c : Cert) (h : env.Unmarshal smData = .ok (sm, []))
    (hp : env.ParseCertificate sm.PubContent.Content.Bytes = .ok (some c))
    (hk : ∀ p, env.certPublicKey c ≠ .sm2Ptr p) :
    (∀ r, (Decode env smData password).outcome ≠ .returned r) ∧
    (∀ dBytes,
      (DecryptSm2Key env password sm.PrivContent.Content.Bytes).outcome =
        .returned dBytes →
      (Decode env smData password).outcome = .panicked .typeAssertion) ∧
    (∀ e, (DecryptSm2Key env password sm.PrivContent.Content.Bytes).outcome = .fatal e →
      (Decode env smData password).outcome = .fatal e) ∧
    (∀ k, (DecryptSm2Key env password sm.PrivContent.Content.Bytes).outcome =
        .panicked k →
      (Decode env smData password).outcome = .panicked k) := by
  refine ⟨?_, ?_, ?_, ?_⟩
  · intro r hr
    obtain ⟨dBytes, c2, pk, _, h2, h3, _⟩ :=
      Decode_well_formed_returned env smData password sm h r hr
    rw [hp] at h2
    injection h2 with h2
    injection h2 with h2
    subst h2
    exact hk _ h3
  · intro dBytes hd
    rw [Decode_well_formed env smData password sm h]
    simp only [Go.andThen_call, Go.andThen_of_returned hd, hp, deref, Go.andThen_ret]
    cases hc : env.certPublicKey c with
    | nilIface => simp [assertSm2Ptr, Go.andThen, Go.panic]
    | other n => simp [assertSm2Ptr, Go.andThen, Go.panic]
    | sm2Ptr q => exact absurd hc (hk q)
  · intro e hd
    rw [Decode_well_formed env smData password sm h]
    simp only [Go.andThen_call, Go.andThen_of_fatal hd]
  · intro k hd
    rw [Decode_well_formed env smData password sm h]
    simp only [Go.andThen_call, Go.andThen_of_panicked hd]

/-- The sample container with a certificate carrying a key of another type. -/
theorem Decode_other_key_type_witness :
    (Sample.env []).Unmarshal
        (Sample.container (List.replicate 32 5) Sample.rsaCertBytes) =
        .ok (Sample.pdu (List.replicate 32 5) Sample.rsaCertBytes, []) ∧
      (Decode (Sample.env []) (Sample.container (List.replicate 32 5) Sample.rsaCertBytes)
          Sample.password).outcome = .panicked .typeAssertion :=
  ⟨by rfl,
    (Decode_other_key_type (Sample.env [])
      (Sample.container (List.replicate 32 5) Sample.rsaCertBytes) Sample.password
      (Sample.pdu (List.replicate 32 5) Sample.rsaCertBytes)
      ⟨Sample.rsaCertBytes, .other "*rsa.PublicKey"⟩ (by rfl) (by rfl)
      (fun p hq => DynKey.noConfusion hq)).2.1 (List.replicate 32 37) (by rfl)⟩

/-- C10: with the file read yielding `data`: when `data` is not valid base64,
`ReadPrivateKeyFromSMFile` returns a nil key and the base64 error, having
called only the file functions and the base64 decoder (`Decode`, whose first
call is the ASN.1 decode, is not called); otherwise it runs `Decode` on the
decoded bytes and the password, and returns the private key and the error that
`Decode` returns, the certificate being dropped and the key being nil with
every error; when `Decode` does not return, neither does it. -/
theorem ReadPrivateKeyFromSMFile_spec (env : Env PK Cert) (file password : GoString)
    (f : env.fs.File) (data : Bytes)
    (ho : env.fs.Open file = .ok f) (hd : env.fs.ReadAll f = .ok data) :
    (∀ e, env.b64DecodeString (stringOfBytes data) = .error e →
      ReadPrivateKeyFromSMFile env file password =
          ⟨[.osOpen file, .ioutilReadAll, .base64DecodeString (stringOfBytes data)],
            .returned ⟨none, some e⟩⟩ ∧
        ∀ x, Event.asn1Unmarshal x ∉ (ReadPrivateKeyFromSMFile env file password).trace) ∧
    (∀ d, env.b64DecodeString (stringOfBytes data) = .ok d →
      (ReadPrivateKeyFromSMFile env file password).trace =
          [.osOpen file, .ioutilReadAll, .base64DecodeString (stringOfBytes data)] ++
            (Decode env d password).trace ∧
        (∀ r, (Decode env d password).outcome = .returned r →
          (ReadPrivateKeyFromSMFile env file password).outcome =
              .returned ⟨r.privateKey, r.err⟩ ∧
            (r.err ≠ none → r.privateKey = none)) ∧
        (∀ e, (Decode env d password).outcome = .fatal e →
          (ReadPrivateKeyFromSMFile env file password).outcome = .fatal e) ∧
        (∀ k, (Decode env d password).outcome = .panicked k →
          (ReadPrivateKeyFromSMFile env file password).outcome = .panicked k)) := by
  constructor
  · intro e he
    have hR : ReadPrivateKeyFromSMFile env file password =
        ⟨[.osOpen file, .ioutilReadAll, .base64DecodeString (stringOfBytes data)],
          .returned ⟨none, some e⟩⟩ := by
      simp [ReadPrivateKeyFromSMFile, Go.bind_def, Go.pure_def, Go.andThen_call, ho, hd, he,
        Go.ret]
    refine ⟨hR, ?_⟩
    intro x hx
    rw [hR] at hx
    simp at hx
  · intro d hb
    have hR : ReadPrivateKeyFromSMFile env file password =
        ⟨[.osOpen file, .ioutilReadAll, .base64DecodeString (stringOfBytes data)] ++
            (Go.andThen (Decode env d password) (fun r =>
              match r.err with
              | some err => Go.ret (⟨none, some err⟩ : ReadResult PK)
              | none => Go.ret ⟨r.privateKey, none⟩)).trace,
          (Go.andThen (Decode env d password) (fun r =>
              match r.err with
              | some err => Go.ret (⟨none, some err⟩ : ReadResult PK)
              | none => Go.ret ⟨r.privateKey, none⟩)).outcome⟩ := by
      simp [ReadPrivateKeyFromSMFile, Go.bind_def, Go.pure_def, Go.andThen_call, ho, hd, hb]
    rw [hR]
    cases hD : (Decode env d password).outcome with
    | returned r =>
      rw [Go.andThen_of_returned hD]
      have hnil : r.err ≠ none → r.privateKey = none := by
        rcases Decode_returned_cases env d password r hD with
          ⟨e, _, rfl⟩ | ⟨sm, trailing, _, _, rfl⟩ | ⟨sm, dBytes, c, pk, _, _, _, _, rfl⟩ <;>
        simp
      refine ⟨?_, ?_, ?_, ?_⟩
      · cases hre : r.err <;> simp [Go.ret]
      · intro r2 hr2
        injection hr2 with hr2
        subst hr2
        refine ⟨?_, hnil⟩
        cases hre : r.err with
        | none => simp [Go.ret]
        | some err =>
          have := hnil (by simp [hre])
          simp [Go.ret, this]
      · intro e he
        exact Outcome.noConfusion he
      · intro k hk
        exact Outcome.noConfusion hk
    | fatal e =>
      rw [Go.andThen_of_fatal hD]
      refine ⟨rfl, ?_, ?_, ?_⟩
      · intro r hr
        exact Outcome.noConfusion hr
      · intro e2 he
        injection he with he
        rw [he]
      · intro k hk
        exact Outcome.noConfusion hk
    | panicked k =>
      rw [Go.andThen_of_panicked hD]
      refine ⟨rfl, ?_, ?_, ?_⟩
      · intro r hr
        exact Outcome.noConfusion hr
      · intro e he
        exact Outcome.noConfusion he
      · intro k2 hk
        injection hk with hk
        rw [hk]

/-- The two sample files: the text of one is not base64 and gives the decoder's
error; the other holds a container, whose key is returned. -/
theorem ReadPrivateKeyFromSMFile_spec_witness :
    ReadPrivateKeyFromSMFile (Sample.env Sample.files) Sample.badFile Sample.password =
        ⟨[.osOpen Sample.badFile, .ioutilReadAll, .base64DecodeString [33, 33]],
          .returned ⟨none, some ⟨"illegal base64 data"⟩⟩⟩ ∧
      (ReadPrivateKeyFromSMFile (Sample.env Sample.files) Sample.keyFile
          Sample.password).outcome =
        .returned ⟨some ⟨⟨7, 9⟩, SetBytes (List.replicate 32 37)⟩, none⟩ :=
  ⟨((ReadPrivateKeyFromSMFile_spec (Sample.env Sample.files) Sample.badFile Sample.password
      [33, 33] [33, 33] (by rfl) (by rfl)).1 ⟨"illegal base64 data"⟩ (by rfl)).1,
    (((ReadPrivateKeyFromSMFile_spec (Sample.env Sample.files) Sample.keyFile
      Sample.password Sample.keyFileText Sample.keyFileText (by rfl) (by rfl)).2
        (Sample.container (List.replicate 32 5) [1, 7, 9, 0]) (by rfl)).2.1
          ⟨some ⟨⟨7, 9⟩, SetBytes (List.replicate 32 37)⟩,
            some ⟨[1, 7, 9, 0], .sm2Ptr (some ⟨7, 9⟩)⟩, none⟩ (by rfl)).1⟩

/-- `DecryptSm2Key` is the base64 attempt followed by the variant without
the base64 branch. -/
theorem DecryptSm2Key_eq_raw (env : Env PK Cert) (password : GoString)
    (encryptedData : Bytes) :
    DecryptSm2Key env password encryptedData =
      ⟨base64Attempt encryptedData ++ (DecryptSm2KeyRaw env password encryptedData).trace,
        (DecryptSm2KeyRaw env password encryptedData).outcome⟩ := by
  unfold DecryptSm2Key DecryptSm2KeyRaw base64Attempt
  by_cases h : 32 ≤ encryptedData.length ∧ encryptedData.length ≤ 64
  · by_cases hb : encryptedData.length ≠ 32 ∧ encryptedData.length ≠ 48
    · have h3 : (32 ≤ encryptedData.length ∧ encryptedData.length ≤ 64) ∧
          encryptedData.length ≠ 32 ∧ encryptedData.length ≠ 48 := ⟨h, hb⟩
      simp only [if_pos h, if_pos hb, if_pos h3]
      rfl
    · have h3 : ¬ ((32 ≤ encryptedData.length ∧ encryptedData.length ≤ 64) ∧
          encryptedData.length ≠ 32 ∧ encryptedData.length ≠ 48) := fun hc => hb hc.2
      simp only [if_pos h, if_neg hb, if_neg h3]
      rfl
  · have h3 : ¬ ((32 ≤ encryptedData.length ∧ encryptedData.length ≤ 64) ∧
        encryptedData.length ≠ 32 ∧ encryptedData.length ≠ 48) := fun hc => h hc.1
    simp only [if_neg h, if_neg h3]
    rfl

/-- C11: `DecryptSm2Key` ends exactly as its variant without the base64
branch does, on every password and every `encryptedData`; its calls are those
of the variant, preceded by the base64 attempt when the length is in [32, 64]
and is neither 32 nor 48; the buffer handed to the cipher is the raw
`encryptedData`; and replacing the base64 decoder by any other function (any
result, any error) changes nothing. -/
theorem DecryptSm2Key_base64_dead (env : Env PK Cert) (password : GoString)
    (encryptedData : Bytes) :
    (DecryptSm2Key env password encryptedData).outcome =
      (DecryptSm2KeyRaw env password encryptedData).outcome ∧
    (DecryptSm2Key env password encryptedData).trace =
      base64Attempt encryptedData ++ (DecryptSm2KeyRaw env password encryptedData).trace ∧
    (∀ x m, Event.sm4Cbc x m ∈ (DecryptSm2Key env password encryptedData).trace →
      x = encryptedData ∧ m = false) ∧
    (∀ f, DecryptSm2Key { env with b64Decode := f } password encryptedData =
      DecryptSm2Key env password encryptedData) := by
  refine ⟨?_, ?_, ?_, ?_⟩
  · rw [DecryptSm2Key_eq_raw]
  · rw [DecryptSm2Key_eq_raw]
  · intro x m hx
    by_cases h : 32 ≤ encryptedData.length ∧ encryptedData.length ≤ 64
    · by_cases hd : 16 ≤ (kdfBytes env (bytesOfString password)).length
      · rw [DecryptSm2Key_in_range env password _ h hd] at hx
        cases hc : env.sm4.Sm4Cbc
            (env.sm4.Init ((kdfBytes env (bytesOfString password)).take 16)
              ((kdfBytes env (bytesOfString password)).drop 16)) encryptedData false with
        | error e =>
          simp only [hc, decryptPrelude] at hx
          by_cases hb : encryptedData.length ≠ 32 ∧ encryptedData.length ≠ 48
          · simp [hb] at hx
            exact hx
          · simp [hb] at hx
            exact hx
        | ok out =>
          simp only [hc, decryptPrelude] at hx
          by_cases hb : encryptedData.length ≠ 32 ∧ encryptedData.length ≠ 48
          · simp [hb] at hx
            exact hx
          · simp [hb] at hx
            exact hx
      · rw [DecryptSm2Key_short_digest env password _ h (by omega)] at hx
        simp only [decryptPrelude] at hx
        by_cases hb : encryptedData.length ≠ 32 ∧ encryptedData.length ≠ 48
        · simp [hb] at hx
        · simp [hb] at hx
    · rw [DecryptSm2Key_out_of_range env password _ h] at hx
      simp at hx
  · intro f
    rw [DecryptSm2Key_eq_raw, DecryptSm2Key_eq_raw env]
    rfl

/-- A buffer of 64 bytes, for which the base64 decode is attempted: the result
is that of the variant, the cipher's output on the raw bytes. -/
theorem DecryptSm2Key_base64_dead_witness :
    (DecryptSm2Key (Sample.env []) Sample.password (List.replicate 64 5)).outcome =
        (DecryptSm2KeyRaw (Sample.env []) Sample.password (List.replicate 64 5)).outcome ∧
      base64Attempt (List.replicate 64 5) = [.base64Decode (List.replicate 64 5)] ∧
      (DecryptSm2KeyRaw (Sample.env []) Sample.password (List.replicate 64 5)).outcome =
        .returned (List.replicate 64 37) :=
  ⟨(DecryptSm2Key_base64_dead (Sample.env []) Sample.password (List.replicate 64 5)).1,
    by rfl, by rfl⟩

/-- `Decode` on a well-formed container when the decryption terminates the
process: nothing more is called. -/
theorem Decode_decrypt_fatal (env : Env PK Cert) (smData : Bytes) (password : GoString)
    (sm : smPdu) (h : env.Unmarshal smData = .ok (sm, [])) (e : GoError)
    (hd : (DecryptSm2Key env password sm.PrivContent.Content.Bytes).outcome = .fatal e) :
    Decode env smData password =
      ⟨.asn1Unmarshal smData ::
          (DecryptSm2Key env password sm.PrivContent.Content.Bytes).trace, .fatal e⟩ := by
  rw [Decode_well_formed env smData password sm h]
  simp only [Go.andThen_call, Go.andThen_of_fatal hd]

/-- `Decode` on a well-formed container when the decryption returns and the
certificate parser reports an error: `log.Fatal` terminates the process. -/
theorem Decode_parse_error (env : Env PK Cert) (smData : Bytes) (password : GoString)
    (sm : smPdu) (h : env.Unmarshal smData = .ok (sm, [])) (dBytes : Bytes) (e : GoError)
    (hd : (DecryptSm2Key env password sm.PrivContent.Content.Bytes).outcome =
      .returned dBytes)
    (hp : env.ParseCertificate sm.PubContent.Content.Bytes = .error e) :
    Decode env smData password =
      ⟨.asn1Unmarshal smData ::
          ((DecryptSm2Key env password sm.PrivContent.Content.Bytes).trace ++
            [.parseCertificate sm.PubContent.Content.Bytes, .logFatal e]), .fatal e⟩ := by
  rw [Decode_well_formed env smData password sm h]
  simp only [Go.andThen_call, Go.andThen_of_returned hd, hp, Go.andThen_logFatal]
  rfl

/-- C12: on a well-formed container, when the private content has a length in
[32, 64] and the cipher reports a decryption error (the digest having the 16
bytes that setting up the cipher needs), `Decode` ends with the process
terminated by `log.Fatal` on that error, and no certificate has been parsed:
the decryption failure comes first.  When the certificate parser reports an
error, `Decode` never returns a value, error or not; once the decryption has
returned, the process is terminated by `log.Fatal` on the parser's error; and
the process is terminated in every case where the decryption does not panic
(content length outside [32, 64], or a digest of at least 16 bytes). -/
theorem Decode_failure_is_fatal (env : Env PK Cert) (smData : Bytes)
    (password : GoString) (sm : smPdu) (h : env.Unmarshal smData = .ok (sm, [])) :
    (∀ e, (32 ≤ sm.PrivContent.Content.Bytes.length ∧
          sm.PrivContent.Content.Bytes.length ≤ 64) →
        16 ≤ (kdfBytes env (bytesOfString password)).length →
        env.sm4.Sm4Cbc
            (env.sm4.Init ((kdfBytes env (bytesOfString password)).take 16)
              ((kdfBytes env (bytesOfString password)).drop 16))
            sm.PrivContent.Content.Bytes false = .error e →
        (Decode env smData password).outcome = .fatal e ∧
        Event.logFatal e ∈ (Decode env smData password).trace ∧
        ∀ der, Event.parseCertificate der ∉ (Decode env smData password).trace) ∧
    (∀ e, env.ParseCertificate sm.PubContent.Content.Bytes = .error e →
        (∀ r, (Decode env smData password).outcome ≠ .returned r) ∧
        (∀ dBytes,
          (DecryptSm2Key env password sm.PrivContent.Content.Bytes).outcome =
            .returned dBytes →
          (Decode env smData password).outcome = .fatal e ∧
          Event.logFatal e ∈ (Decode env smData password).trace) ∧
        ((¬ (32 ≤ sm.PrivContent.Content.Bytes.length ∧
              sm.PrivContent.Content.Bytes.length ≤ 64) ∨
            16 ≤ (kdfBytes env (bytesOfString password)).length) →
          ∃ e2, (Decode env smData password).outcome = .fatal e2)) := by
  constructor
  · intro e hin h16 hc
    have hD := DecryptSm2Key_in_range env password sm.PrivContent.Content.Bytes hin h16
    rw [hc] at hD
    have ho : (DecryptSm2Key env password sm.PrivContent.Content.Bytes).outcome =
        .fatal e := by rw [hD]
    rw [Decode_decrypt_fatal env smData password sm h e ho, hD]
    refine ⟨rfl, by simp, ?_⟩
    intro der hder
    simp only [decryptPrelude] at hder
    by_cases hb : sm.PrivContent.Content.Bytes.length ≠ 32 ∧
        sm.PrivContent.Content.Bytes.length ≠ 48
    · simp [hb] at hder
    · simp [hb] at hder
  · intro e hp
    have hret : ∀ dBytes,
        (DecryptSm2Key env password sm.PrivContent.Content.Bytes).outcome =
          .returned dBytes →
        (Decode env smData password).outcome = .fatal e ∧
        Event.logFatal e ∈ (Decode env smData password).trace := by
      intro dBytes hd
      rw [Decode_parse_error env smData password sm h dBytes e hd hp]
      exact ⟨rfl, by simp⟩
    refine ⟨?_, hret, ?_⟩
    · intro r hr
      obtain ⟨dBytes, c, pk, _, h2, _, _⟩ :=
        Decode_well_formed_returned env smData password sm h r hr
      rw [hp] at h2
      exact Except.noConfusion h2
    · intro hcase
      by_cases hin : 32 ≤ sm.PrivContent.Content.Bytes.length ∧
          sm.PrivContent.Content.Bytes.length ≤ 64
      · have h16 : 16 ≤ (kdfBytes env (bytesOfString password)).length := by
          rcases hcase with hn | h16
          · exact absurd hin hn
          · exact h16
        have hD := DecryptSm2Key_in_range env password sm.PrivContent.Content.Bytes hin h16
        cases hc : env.sm4.Sm4Cbc
            (env.sm4.Init ((kdfBytes env (bytesOfString password)).take 16)
              ((kdfBytes env (bytesOfString password)).drop 16))
            sm.PrivContent.Content.Bytes false with
        | error e2 =>
          rw [hc] at hD
          have ho : (DecryptSm2Key env password sm.PrivContent.Content.Bytes).outcome =
              .fatal e2 := by rw [hD]
          exact ⟨e2, by rw [Decode_decrypt_fatal env smData password sm h e2 ho]⟩
        | ok out =>
          rw [hc] at hD
          have ho : (DecryptSm2Key env password sm.PrivContent.Content.Bytes).outcome =
              .returned out := by rw [hD]
          exact ⟨e, (hret out ho).1⟩
      · have ho : (DecryptSm2Key env password sm.PrivContent.Content.Bytes).outcome =
            .returned [] := by
          rw [DecryptSm2Key_out_of_range env password _ hin]
        exact ⟨e, (hret [] ho).1⟩

/-- A private content of 33 bytes, which the sample cipher refuses, and a
public content that the sample parser refuses. -/
theorem Decode_failure_is_fatal_witness :
    (Sample.env []).Unmarshal (Sample.container (List.replicate 33 5) Sample.certBytes) =
        .ok (Sample.pdu (List.replicate 33 5) Sample.certBytes, []) ∧
      (Decode (Sample.env []) (Sample.container (List.replicate 33 5) Sample.certBytes)
          Sample.password).outcome = .fatal ⟨"sm4: input not full blocks"⟩ ∧
      (Sample.env []).Unmarshal
          (Sample.container (List.replicate 32 5) Sample.badCertBytes) =
        .ok (Sample.pdu (List.replicate 32 5) Sample.badCertBytes, []) ∧
      (Decode (Sample.env []) (Sample.container (List.replicate 32 5) Sample.badCertBytes)
          Sample.password).outcome = .fatal ⟨"x509: malformed certificate"⟩ :=
  ⟨by rfl,
    ((Decode_failure_is_fatal (Sample.env [])
      (Sample.container (List.replicate 33 5) Sample.certBytes) Sample.password
      (Sample.pdu (List.replicate 33 5) Sample.certBytes) (by rfl)).1
        ⟨"sm4: input not full blocks"⟩ ⟨by decide, by decide⟩ (by decide) (by rfl)).1,
    by rfl,
    (((Decode_failure_is_fatal (Sample.env [])
      (Sample.container (List.replicate 32 5) Sample.badCertBytes) Sample.password
      (Sample.pdu (List.replicate 32 5) Sample.badCertBytes) (by rfl)).2
        ⟨"x509: malformed certificate"⟩ (by rfl)).2.1
          (List.replicate 32 37) (by rfl)).1⟩

/-- Inside the length window the trace of `DecryptSm2Key` is never empty, so
the nil branch is taken exactly outside the window. -/
theorem DecryptSm2Key_nil_branch_iff (env : Env PK Cert) (password : GoString)
    (encryptedData : Bytes) :
    DecryptSm2Key env password encryptedData = ⟨[], .returned []⟩ ↔
      ¬ (32 ≤ encryptedData.length ∧ encryptedData.length ≤ 64) := by
  constructor
  · intro hnil hin
    have ht : (DecryptSm2Key env password encryptedData).trace = [] := by rw [hnil]
    by_cases hd : 16 ≤ (kdfBytes env (bytesOfString password)).length
    · rw [DecryptSm2Key_in_range env password _ hin hd] at ht
      simp [decryptPrelude] at ht
    · rw [DecryptSm2Key_short_digest env password _ hin (by omega)] at ht
      simp [decryptPrelude] at ht
  · intro hout
    exact DecryptSm2Key_out_of_range env password encryptedData hout

/-- With a cipher whose success depends on the length of its input only and a
digest of at least 16 bytes, the way `DecryptSm2Key` ends under one password
is the way it ends under any other. -/
theorem DecryptSm2Key_transfer (env : Env PK Cert) (p q : GoString)
    (encryptedData : Bytes)
    (hcipher : ∀ c1 c2 d1 d2 m, d1.length = d2.length →
      ((∃ o, env.sm4.Sm4Cbc c1 d1 m = .ok o) ↔ (∃ o, env.sm4.Sm4Cbc c2 d2 m = .ok o)))
    (hsize : ∀ z, 16 ≤ (kdfBytes env z).length) :
    ((∃ e, (DecryptSm2Key env p encryptedData).outcome = .fatal e) →
      ∃ e, (DecryptSm2Key env q encryptedData).outcome = .fatal e) ∧
    ((∃ o, (DecryptSm2Key env p encryptedData).outcome = .returned o) →
      ∃ o, (DecryptSm2Key env q encryptedData).outcome = .returned o) ∧
    ((∃ o, (DecryptSm2Key env p encryptedData).outcome = .returned o ∧
        Event.sm4Cbc encryptedData false ∈ (DecryptSm2Key env p encryptedData).trace) →
      ∃ o, (DecryptSm2Key env q encryptedData).outcome = .returned o ∧
        Event.sm4Cbc encryptedData false ∈ (DecryptSm2Key env q encryptedData).trace) := by
  by_cases hin : 32 ≤ encryptedData.length ∧ encryptedData.length ≤ 64
  · have hP := DecryptSm2Key_in_range env p encryptedData hin (hsize _)
    have hQ := DecryptSm2Key_in_range env q encryptedData hin (hsize _)
    have hpq := hcipher
      (env.sm4.Init ((kdfBytes env (bytesOfString p)).take 16)
        ((kdfBytes env (bytesOfString p)).drop 16))
      (env.sm4.Init ((kdfBytes env (bytesOfString q)).take 16)
        ((kdfBytes env (bytesOfString q)).drop 16))
      encryptedData encryptedData false rfl
    cases hc1 : env.sm4.Sm4Cbc
        (env.sm4.Init ((kdfBytes env (bytesOfString p)).take 16)
          ((kdfBytes env (bytesOfString p)).drop 16)) encryptedData false with
    | error e1 =>
      cases hc2 : env.sm4.Sm4Cbc
          (env.sm4.Init ((kdfBytes env (bytesOfString q)).take 16)
            ((kdfBytes env (bytesOfString q)).drop 16)) encryptedData false with
      | error e2 =>
        rw [hP, hQ, hc1, hc2]
        simp
      | ok o2 =>
        obtain ⟨o, ho⟩ := hpq.2 ⟨o2, hc2⟩
        rw [hc1] at ho
        exact Except.noConfusion ho
    | ok o1 =>
      cases hc2 : env.sm4.Sm4Cbc
          (env.sm4.Init ((kdfBytes env (bytesOfString q)).take 16)
            ((kdfBytes env (bytesOfString q)).drop 16)) encryptedData false with
      | error e2 =>
        obtain ⟨o, ho⟩ := hpq.1 ⟨o1, hc1⟩
        rw [hc2] at ho
        exact Except.noConfusion ho
      | ok o2 =>
        rw [hP, hQ, hc1, hc2]
        simp
  · rw [DecryptSm2Key_out_of_range env p _ hin, DecryptSm2Key_out_of_range env q _ hin]
    simp

/-- `Decode` on a well-formed container when every step succeeds. -/
theorem Decode_returns (env : Env PK Cert) (smData : Bytes) (password : GoString)
    (sm : smPdu) (h : env.Unmarshal smData = .ok (sm, [])) (dBytes : Bytes) (c : Cert)
    (pk : PK)
    (hd : (DecryptSm2Key env password sm.PrivContent.Content.Bytes).outcome =
      .returned dBytes)
    (hp : env.ParseCertificate sm.PubContent.Content.Bytes = .ok (some c))
    (hk : env.certPublicKey c = .sm2Ptr (some pk)) :
    (Decode env smData password).outcome =
      .returned ⟨some { PublicKey := pk, D := SetBytes dBytes }, some c, none⟩ := by
  rw [Decode_well_formed env smData password sm h]
  simp only [Go.andThen_call, Go.andThen_of_returned hd, hp, hk, deref, assertSm2Ptr,
    Go.andThen_ret]
  rfl

/-- With a cipher whose success depends on the length of its input only and a
digest of at least 16 bytes: if `Decode` returns under one password, it
returns under any other, and with the same error. -/
theorem Decode_transfer (env : Env PK Cert) (p q : GoString) (smData : Bytes)
    (hcipher : ∀ c1 c2 d1 d2 m, d1.length = d2.length →
      ((∃ o, env.sm4.Sm4Cbc c1 d1 m = .ok o) ↔ (∃ o, env.sm4.Sm4Cbc c2 d2 m = .ok o)))
    (hsize : ∀ z, 16 ≤ (kdfBytes env z).length)
    (r : DecodeResult PK Cert) (hr : (Decode env smData p).outcome = .returned r) :
    ∃ r2, (Decode env smData q).outcome = .returned r2 ∧ r2.err = r.err := by
  rcases Decode_returned_cases env smData p r hr with
    ⟨e, hu, rfl⟩ | ⟨sm, trailing, hu, ht, rfl⟩ | ⟨sm, dBytes, c, pk, hu, hd, hp, hk, rfl⟩
  · exact ⟨_, by rw [Decode_unmarshal_error env smData q e hu], rfl⟩
  · exact ⟨_, by rw [Decode_trailing env smData q sm trailing hu ht], rfl⟩
  · obtain ⟨o, ho⟩ :=
      (DecryptSm2Key_transfer env p q sm.PrivContent.Content.Bytes hcipher hsize).2.1
        ⟨dBytes, hd⟩
    exact ⟨_, Decode_returns env smData q sm hu o c pk ho hp hk, rfl⟩

/-- The sample cipher succeeds on whole blocks, whatever the iv and the key. -/
theorem Sample.sm4_length_only (c1 c2 : (Sample.env []).sm4.Ctx) (d1 d2 : Bytes) (m : Bool)
    (h : d1.length = d2.length) :
    (∃ o, (Sample.env []).sm4.Sm4Cbc c1 d1 m = .ok o) ↔
      (∃ o, (Sample.env []).sm4.Sm4Cbc c2 d2 m = .ok o) := by
  simp only [Sample.env, Sample.sm4, h]
  by_cases hl : d2.length % 16 = 0
  · simp [hl]
  · simp [hl]

/-- The sample digest has 32 bytes. -/
theorem Sample.kdfBytes_length (z : Bytes) : 16 ≤ (kdfBytes (Sample.env []) z).length := by
  show 16 ≤ ([] ++ Sample.digest _).length
  simp [Sample.digest]

/-- C13: with a cipher whose CBC decryption succeeds or fails depending on the
length of its input only, and a digest of at least 16 bytes: for every
`encryptedData` and any two passwords, `DecryptSm2Key` terminates the process
under one exactly when it does under the other, returns through the nil
branch under one exactly when it does under the other, and returns a buffer
from the cipher under one exactly when it does under the other; `Decode` on
the same container returns an error under one exactly when it does under the
other, and returns without error under one exactly when it does under the
other; so when decryption returns under one password, it raises no error
under any other. -/
theorem DecryptSm2Key_password_independent (env : Env PK Cert) (p1 p2 : GoString)
    (encryptedData : Bytes)
    (hcipher : ∀ c1 c2 d1 d2 m, d1.length = d2.length →
      ((∃ o, env.sm4.Sm4Cbc c1 d1 m = .ok o) ↔ (∃ o, env.sm4.Sm4Cbc c2 d2 m = .ok o)))
    (hsize : ∀ z, 16 ≤ (kdfBytes env z).length) :
    ((∃ e, (DecryptSm2Key env p1 encryptedData).outcome = .fatal e) ↔
      (∃ e, (DecryptSm2Key env p2 encryptedData).outcome = .fatal e)) ∧
    (DecryptSm2Key env p1 encryptedData = ⟨[], .returned []⟩ ↔
      DecryptSm2Key env p2 encryptedData = ⟨[], .returned []⟩) ∧
    ((∃ o, (DecryptSm2Key env p1 encryptedData).outcome = .returned o ∧
        Event.sm4Cbc encryptedData false ∈ (DecryptSm2Key env p1 encryptedData).trace) ↔
      (∃ o, (DecryptSm2Key env p2 encryptedData).outcome = .returned o ∧
        Event.sm4Cbc encryptedData false ∈ (DecryptSm2Key env p2 encryptedData).trace)) ∧
    (∀ smData,
      ((∃ r, (Decode env smData p1).outcome = .returned r ∧ r.err ≠ none) ↔
        (∃ r, (Decode env smData p2).outcome = .returned r ∧ r.err ≠ none)) ∧
      ((∃ r, (Decode env smData p1).outcome = .returned r ∧ r.err = none) ↔
        (∃ r, (Decode env smData p2).outcome = .returned r ∧ r.err = none))) ∧
    ((∃ o, (DecryptSm2Key env p1 encryptedData).outcome = .returned o) →
      ∀ e, (DecryptSm2Key env p2 encryptedData).outcome ≠ .fatal e) := by
  have h12 := DecryptSm2Key_transfer env p1 p2 encryptedData hcipher hsize
  have h21 := DecryptSm2Key_transfer env p2 p1 encryptedData hcipher hsize
  refine ⟨⟨h12.1, h21.1⟩, ?_, ⟨h12.2.2, h21.2.2⟩, ?_, ?_⟩
  · rw [DecryptSm2Key_nil_branch_iff, DecryptSm2Key_nil_branch_iff]
  · intro smData
    refine ⟨⟨?_, ?_⟩, ⟨?_, ?_⟩⟩
    · rintro ⟨r, hr, he⟩
      obtain ⟨r2, hr2, he2⟩ := Decode_transfer env p1 p2 smData hcipher hsize r hr
      exact ⟨r2, hr2, by rw [he2]; exact he⟩
    · rintro ⟨r, hr, he⟩
      obtain ⟨r2, hr2, he2⟩ := Decode_transfer env p2 p1 smData hcipher hsize r hr
      exact ⟨r2, hr2, by rw [he2]; exact he⟩
    · rintro ⟨r, hr, he⟩
      obtain ⟨r2, hr2, he2⟩ := Decode_transfer env p1 p2 smData hcipher hsize r hr
      exact ⟨r2, hr2, by rw [he2]; exact he⟩
    · rintro ⟨r, hr, he⟩
      obtain ⟨r2, hr2, he2⟩ := Decode_transfer env p2 p1 smData hcipher hsize r hr
      exact ⟨r2, hr2, by rw [he2]; exact he⟩
  · intro hret e he
    obtain ⟨o, ho⟩ := h12.2.1 hret
    rw [ho] at he
    exact Outcome.noConfusion he

/-- Two passwords on the same 32 bytes: both decryptions return, with different
buffers, and on 33 bytes both terminate the process. -/
theorem DecryptSm2Key_password_independent_witness :
    (DecryptSm2Key (Sample.env []) Sample.password (List.replicate 32 5)).outcome =
        .returned (List.replicate 32 37) ∧
      (DecryptSm2Key (Sample.env []) Sample.otherPassword (List.replicate 32 5)).outcome =
        .returned (List.replicate 32 3) ∧
      ((∃ e, (DecryptSm2Key (Sample.env []) Sample.password
            (List.replicate 33 5)).outcome = .fatal e) ↔
        (∃ e, (DecryptSm2Key (Sample.env []) Sample.otherPassword
            (List.replicate 33 5)).outcome = .fatal e)) ∧
      ∀ e, (DecryptSm2Key (Sample.env []) Sample.otherPassword
        (List.replicate 32 5)).outcome ≠ .fatal e :=
  ⟨by rfl, by rfl,
    (DecryptSm2Key_password_independent (Sample.env []) Sample.password
      Sample.otherPassword (List.replicate 33 5) Sample.sm4_length_only
      Sample.kdfBytes_length).1,
    (DecryptSm2Key_password_independent (Sample.env []) Sample.password
      Sample.otherPassword (List.replicate 32 5) Sample.sm4_length_only
      Sample.kdfBytes_length).2.2.2.2 ⟨List.replicate 32 37, by rfl⟩⟩

/-- C14: `Decode` validates neither the version nor any object identifier:
two containers that are both decoded with no rest and agree on the bytes of
the private content and of the public content are treated alike under the
same password, whatever their versions and object identifiers are: `Decode`
ends in the same way (same error, or same private key and certificate, or
same termination), after the same calls once the ASN.1 decode is done. -/
theorem Decode_ignores_version_and_oids (env : Env PK Cert) (password : GoString)
    (data1 data2 : Bytes) (sm1 sm2 : smPdu)
    (h1 : env.Unmarshal data1 = .ok (sm1, [])) (h2 : env.Unmarshal data2 = .ok (sm2, []))
    (hpriv : sm1.PrivContent.Content.Bytes = sm2.PrivContent.Content.Bytes)
    (hpub : sm1.PubContent.Content.Bytes = sm2.PubContent.Content.Bytes) :
    (Decode env data1 password).outcome = (Decode env data2 password).outcome ∧
    (Decode env data1 password).trace.tail = (Decode env data2 password).trace.tail := by
  rw [Decode_well_formed env data1 password sm1 h1,
    Decode_well_formed env data2 password sm2 h2, hpriv, hpub]
  exact ⟨rfl, rfl⟩

/-- Two containers with the same contents, one with version 3 and one with
version 200 and other object identifiers, give the same key and certificate. -/
theorem Decode_ignores_version_and_oids_witness :
    (Sample.taggedPdu 3 (List.replicate 32 5) Sample.certBytes).Version ≠
        (Sample.taggedPdu 200 (List.replicate 32 5) Sample.certBytes).Version ∧
      (Sample.taggedPdu 3 (List.replicate 32 5) Sample.certBytes).PrivContent.OID1 ≠
        (Sample.taggedPdu 200 (List.replicate 32 5) Sample.certBytes).PrivContent.OID1 ∧
      (Decode Sample.taggedEnv
          (3 :: Sample.container (List.replicate 32 5) Sample.certBytes)
          Sample.password).outcome = .returned Sample.decoded ∧
      (Decode Sample.taggedEnv
          (3 :: Sample.container (List.replicate 32 5) Sample.certBytes)
          Sample.password).outcome =
        (Decode Sample.taggedEnv
          (200 :: Sample.container (List.replicate 32 5) Sample.certBytes)
          Sample.password).outcome :=
  ⟨by decide, by decide, by rfl,
    (Decode_ignores_version_and_oids Sample.taggedEnv Sample.password
      (3 :: Sample.container (List.replicate 32 5) Sample.certBytes)
      (200 :: Sample.container (List.replicate 32 5) Sample.certBytes)
      (Sample.taggedPdu 3 (List.replicate 32 5) Sample.certBytes)
      (Sample.taggedPdu 200 (List.replicate 32 5) Sample.certBytes)
      (by rfl) (by rfl) (by rfl) (by rfl)).1⟩

end Proofs

end Pkcs12
